import Mathlib

/-!
Shallow embedding of the finops report pipeline (pythera-ai/finops).

The scripts embedded here are the ones targeted by the claims of the specification:

* `report_chung_khoan___improved_version___27_7.flow/validate_data_quality.inline_script.py`
  (`validate_data_quality`, `merge_inputs`),
* `report_chung_khoan___improved_version___27_7.flow` and
  `report_chung_khoan___improved_version___18_8.flow` previous-day CSV download scripts,
* `bonny_flow.flow/fetch_index_summary.inline_script.py` and
  `report_chung_khoan___improved_version___27_7.flow/fetch_khoi_ngoai.inline_script.py`.

JSON-shaped Python data is modelled by the inductive type `Val`; Python dicts are
string-keyed insertion-ordered association lists (`aget` / `aset`), matching dict
lookup and `d[k] = v` update semantics.  Python floats are modelled as exact
rationals.  A Python function that can raise an uncaught exception is modelled as
an `Option`-valued function, `none` standing for the propagated exception.
-/

/-- Lookup in a string-keyed association list, modelling Python `d[k]` / `k in d`
(first binding wins; Python dicts have unique keys). -/
def aget {α : Type} : List (String × α) → String → Option α
  | [], _ => none
  | (k, v) :: rest, key => if k = key then some v else aget rest key

/-- Update of a string-keyed association list, modelling Python `d[k] = v`:
an existing binding is overwritten in place, a new key is appended at the end
(Python dicts preserve insertion order). -/
def aset {α : Type} : List (String × α) → String → α → List (String × α)
  | [], key, v => [(key, v)]
  | (k, w) :: rest, key, v =>
    if k = key then (key, v) :: rest else (k, w) :: aset rest key v

/-- JSON-shaped Python values: strings, numbers (ints and floats collapsed to ℚ),
booleans, `None`, lists, and string-keyed dicts. -/
inductive Val where
  | vstr  : String → Val
  | vnum  : ℚ → Val
  | vbool : Bool → Val
  | vnull : Val
  | vlist : List Val → Val
  | vdict : List (String × Val) → Val

/-- A Python dict value. -/
abbrev PyDict := List (String × Val)

/-- Python truthiness: empty strings/lists/dicts, `0`, `False` and `None` are falsy. -/
def pyTruthy : Val → Bool
  | .vstr s => !(s == "")
  | .vnum q => !(q == 0)
  | .vbool b => b
  | .vnull => false
  | .vlist l => !l.isEmpty
  | .vdict d => !d.isEmpty

/-- Numeric value of a list of decimal digit characters. -/
def digitsToNat (cs : List Char) : ℕ :=
  cs.foldl (fun a c => a * 10 + (c.toNat - 48)) 0

/-- Python `float(s)` on a string, modelled for the sign/digits/point forms this
pipeline produces (`"12"`, `"-3.5"`, `".5"`, `"7."`).  Exponents, underscores and
the `inf`/`nan` spellings do not occur in the data of this pipeline and are not
modelled; on them, as on any other malformed string, the result is `none`
(Python raises `ValueError`). -/
def pyFloatOfString (s : String) : Option ℚ :=
  let cs := s.trim.toList
  let signAndRest : ℚ × List Char :=
    match cs with
    | '-' :: rest => (-1, rest)
    | '+' :: rest => (1, rest)
    | _ => (1, cs)
  let sign := signAndRest.1
  let body := signAndRest.2
  let intPart := body.takeWhile Char.isDigit
  let rest := body.dropWhile Char.isDigit
  match rest with
  | [] =>
    if intPart.isEmpty then none else some (sign * digitsToNat intPart)
  | '.' :: fracRest =>
    let fracPart := fracRest.takeWhile Char.isDigit
    let rest2 := fracRest.dropWhile Char.isDigit
    if rest2.isEmpty && !(intPart.isEmpty && fracPart.isEmpty) then
      some (sign * ((digitsToNat intPart : ℚ) +
        (digitsToNat fracPart : ℚ) / 10 ^ fracPart.length))
    else none
  | _ => none

/-- Python `float(x)` on a value: numbers pass through, booleans are 0/1,
strings are parsed; `None`, lists and dicts raise (`none`). -/
def pyFloat : Val → Option ℚ
  | .vnum q => some q
  | .vbool b => some (if b then 1 else 0)
  | .vstr s => pyFloatOfString s
  | _ => none

/-- Floor of a rational, computed as floor division of numerator by denominator. -/
def qfloor (q : ℚ) : ℤ := q.num.fdiv (q.den : ℤ)

/-- Round a rational to the nearest integer, ties to even — the rounding used by
the built-in `round` of Python. -/
def roundHalfEven (q : ℚ) : ℤ :=
  let f := qfloor q
  let r := q - (f : ℚ)
  if r < 1 / 2 then f
  else if (1 : ℚ) / 2 < r then f + 1
  else if f % 2 = 0 then f else f + 1

/-- Python `round(q, n)` on the exact-rational model of floats. -/
def roundTo (n : ℕ) (q : ℚ) : ℚ :=
  (roundHalfEven (q * 10 ^ n) : ℚ) / 10 ^ n

/-- `x == "N/A"` in Python: only the string `"N/A"` compares equal. -/
def isNA : Val → Bool
  | .vstr s => s == "N/A"
  | _ => false

/-- Rendering of a value by Python `str()`, used only to build the
`"Module i: ..."` error strings of `merge_inputs`.  Exact for the strings the
adapters actually store in `error`; numbers and containers are rendered
approximately (no claim inspects these strings). -/
def pyStr : Val → String
  | .vstr s => s
  | .vnum q => toString q.num ++ (if q.den = 1 then ".0" else "/" ++ toString q.den)
  | .vbool b => if b then "True" else "False"
  | .vnull => "None"
  | .vlist l => "[" ++ String.intercalate ", " (l.attach.map (fun x => pyStr x.1)) ++ "]"
  | .vdict d => "\x7b" ++ String.intercalate ", "
      (d.attach.map (fun x => x.1.1 ++ ": " ++ pyStr x.1.2)) ++ "\x7d"
decreasing_by
  · have h := List.sizeOf_lt_of_mem x.2
    simp only [Val.vlist.sizeOf_spec]
    omega
  · obtain ⟨⟨a, b⟩, hx⟩ := x
    have h := List.sizeOf_lt_of_mem hx
    simp only [Prod.mk.sizeOf_spec] at h
    simp only [Val.vdict.sizeOf_spec]
    omega

/-!
### `validate_data_quality` (27_7 flow)
-/

/-- The four fields checked by the completeness loop of `validate_data_quality`. -/
def requiredFields : List String := ["top_sectors", "top_netforeign", "top_interested", "khoi_tu_doanh"]

/-- The quality report dict built by `validate_data_quality`
(keys `passed`, `issues`, `warnings`, `timestamp`). -/
structure QReport where
  passed : Bool
  issues : List String
  warnings : List String
  timestamp : String

/-- Embedding of `validate_data_quality(merged_data)`.  `now` stands for
`datetime.utcnow().isoformat()`.  The function starts from
`passed = True, issues = [], warnings = []`, flips `passed` and records an issue
only when `merged_data.get("index_summary")` is falsy, records a warning when
`merged_data.get("khoi_ngoai")` is falsy, and records a warning for each of the
four `required_fields` that is absent or falsy. -/
def validate_data_quality (now : String) (md : PyDict) : QReport :=
  let indexOk := pyTruthy ((aget md "index_summary").getD Val.vnull)
  let issues := if indexOk then [] else ["Missing index summary data"]
  let passed := if indexOk then true else false
  let warnings0 :=
    if pyTruthy ((aget md "khoi_ngoai").getD Val.vnull) then []
    else ["Missing khoi ngoai data"]
  let warnings1 := requiredFields.filterMap (fun f =>
    match aget md f with
    | none => some ("Missing or empty " ++ f)
    | some v => if pyTruthy v then none else some ("Missing or empty " ++ f))
  ⟨passed, issues, warnings0 ++ warnings1, now⟩

/-- The quality report as the dict value stored under `data_quality`. -/
def qreportToVal (q : QReport) : Val :=
  Val.vdict [("passed", Val.vbool q.passed),
             ("issues", Val.vlist (q.issues.map Val.vstr)),
             ("warnings", Val.vlist (q.warnings.map Val.vstr)),
             ("timestamp", Val.vstr q.timestamp)]

/-!
### `merge_inputs` (27_7 flow)
-/

/-- `last_day_map.get(index_id, 0)` where `index_id` is `item_copy.get("indexId")`:
on a non-dict receiver `.get` raises; a list or dict key is unhashable and raises;
any other key either hits the string-keyed map (string keys only) or yields the
default `0`. -/
def prevLookup (src : Val) (indexId : Val) : Option Val :=
  match src with
  | .vdict d =>
    match indexId with
    | .vstr s => some ((aget d s).getD (Val.vnum 0))
    | .vlist _ => none
    | .vdict _ => none
    | _ => some (Val.vnum 0)
  | _ => none

/-- `float(last_day_map.get(item_copy.get("indexId"), 0))` — lines 75–77 of
`merge_inputs`, not protected by any `try`. -/
def lookFloat (src : Val) (item : PyDict) : Option ℚ :=
  (prevLookup src ((aget item "indexId").getD Val.vnull)).bind pyFloat

/-- The `allQty` try-block of `merge_inputs` (lines 85–105): convert `allQty` to
millions, then compute `klgd_change_percent` and `klgd_change_amount` against the
previous-day value `k`.  A failed `float` leaves the item untouched; a zero `k`
raises `ZeroDivisionError` after `allQty` was already overwritten, so the
converted `allQty` survives while the two `klgd_` keys are never written
(`except: pass`). -/
def tryQty (k : ℚ) (d : PyDict) : PyDict :=
  match aget d "allQty" with
  | none => d
  | some v =>
    if isNA v then d
    else
      match pyFloat v with
      | none => d
      | some q =>
        let cur := q / 10 ^ 6
        let d1 := aset d "allQty" (Val.vnum cur)
        if k = 0 then d1
        else
          aset (aset d1 "klgd_change_percent"
            (Val.vnum (roundTo 2 ((cur - k) / k * 100))))
            "klgd_change_amount" (Val.vnum (roundTo 3 (cur - k)))

/-- The `allValue` try-block of `merge_inputs` (lines 106–127), the billions /
`gtdg_` counterpart of `tryQty`. -/
def tryValue (g : ℚ) (d : PyDict) : PyDict :=
  match aget d "allValue" with
  | none => d
  | some v =>
    if isNA v then d
    else
      match pyFloat v with
      | none => d
      | some q =>
        let cur := q / 10 ^ 9
        let d1 := aset d "allValue" (Val.vnum cur)
        if g = 0 then d1
        else
          aset (aset d1 "gtdg_change_percent"
            (Val.vnum (roundTo 2 ((cur - g) / g * 100))))
            "gtdg_change_amount" (Val.vnum (roundTo 3 (cur - g)))

/-- Per-item body of the `index_summary` loop of `merge_inputs` (lines 72–128):
`item.copy()`, previous-day lookups (which may raise), the two `_last_day`
assignments, then the two try-blocks. -/
def enrichItem (gm km : Val) (item : PyDict) : Option PyDict := do
  let g ← lookFloat gm item
  let k ← lookFloat km item
  let d0 := aset (aset item "gtdg_last_day" (Val.vnum g)) "klgd_last_day" (Val.vnum k)
  some (tryValue g (tryQty k d0))

/-- The `index_summary` processing of a truthy `data["index_summary"]` value:
iterate and enrich each item.  A truthy non-list, or a list element that is not
a dict, raises (`item.copy()` / iteration fails). -/
def processSummary (gm km : Val) (v : Val) : Option (List Val) :=
  match v with
  | .vlist items =>
    items.mapM (fun it =>
      match it with
      | .vdict d => (enrichItem gm km d).map Val.vdict
      | _ => none)
  | _ => none

/-- The recognized keys of `data_mappings`, in the (insertion-order) iteration
order of the literal dict in `merge_inputs`. -/
def mergeKeys : List String :=
  ["impact_up", "impact_down", "index_summary", "khoi_ngoai",
   "top_interested", "top_netforeign", "khoi_tu_doanh", "top_sectors"]

/-- One iteration of the `for source_key, target_key in data_mappings.items()`
loop: copy the key if present, with the special enrichment path for a truthy
`index_summary`. -/
def storeKey (gm km : Val) (d : PyDict) (merged : PyDict) (k : String) : Option PyDict :=
  match aget d k with
  | none => some merged
  | some v =>
    if k = "index_summary" && pyTruthy v then
      (processSummary gm km v).map (fun items => aset merged k (Val.vlist items))
    else
      some (aset merged k v)

/-- Fold of `storeKey` over the recognized keys. -/
def storeKeys (gm km : Val) (d : PyDict) : PyDict → List String → Option PyDict
  | merged, [] => some merged
  | merged, k :: ks => do
    storeKeys gm km d (← storeKey gm km d merged k) ks

/-- Accumulator of the record loop of `merge_inputs`: the merged dict,
`success_count`, and the `errors` list. -/
structure MState where
  merged : PyDict
  succ : ℕ
  errors : List String

/-- The error string built from the module index and the `error` entry of the
record (an f-string in the source). -/
def moduleError (i : ℕ) (d : PyDict) : String :=
  "Module " ++ toString i ++ ": " ++ pyStr ((aget d "error").getD (Val.vstr "Unknown error"))

/-- One iteration of `for i, data in enumerate(args)`: skip falsy records,
count success / record an error, then copy the recognized keys.  A truthy
non-dict record raises at `data.get("success", True)`. -/
def processRecord (gm km : Val) (i : ℕ) (st : MState) (data : Val) : Option MState :=
  if pyTruthy data = false then some st
  else
    match data with
    | .vdict d =>
      let st1 :=
        if pyTruthy ((aget d "success").getD (Val.vbool true)) then
          { st with succ := st.succ + 1 }
        else
          { st with errors := st.errors ++ [moduleError i d] }
      (storeKeys gm km d st1.merged mergeKeys).map (fun m => { st1 with merged := m })
    | _ => none

/-- The record loop of `merge_inputs`. -/
def mergeFold (gm km : Val) : ℕ → MState → List Val → Option MState
  | _, st, [] => some st
  | i, st, a :: rest => do
    mergeFold gm km (i + 1) (← processRecord gm km i st a) rest

/-- Embedding of `merge_inputs(args, last_day_data)` of the 27_7 flow.  `now`
stands for `datetime.utcnow().isoformat()`.  Returns `none` when the Python
function would propagate an exception. -/
def merge_inputs (now : String) (args : List Val) (last_day_data : PyDict) : Option PyDict := do
  let gm := (aget last_day_data "last_day_gtdg").getD (Val.vdict [])
  let km := (aget last_day_data "last_day_klgd").getD (Val.vdict [])
  let st ← mergeFold gm km 0 ⟨[], 0, []⟩ args
  let rate : ℚ := if 0 < args.length then (st.succ : ℚ) / (args.length : ℚ) else 0
  let meta := Val.vdict
    [("success_rate", Val.vnum rate),
     ("successful_modules", Val.vnum st.succ),
     ("total_modules", Val.vnum args.length),
     ("errors", Val.vlist (st.errors.map Val.vstr)),
     ("timestamp", Val.vstr now)]
  let m1 := aset st.merged "execution_metadata" meta
  let q := validate_data_quality now m1
  some (aset m1 "data_quality" (qreportToVal q))

/-!
### Previous-day CSV download (27_7 and 18_8 flows)
-/

/-- Python `datetime.weekday()` on a proleptic-Gregorian ordinal day number
(`date.toordinal()`): ordinal 1 is a Monday and Monday is 0. -/
def weekday (d : ℕ) : ℕ := (d + 6) % 7

/-- `get_last_trading_day` of the 18_8 download script, on ordinals: Monday runs
target three days earlier (the previous Friday), every other day targets the
previous day. -/
def get_last_trading_day (d : ℕ) : ℕ :=
  if weekday d = 0 then d - 3 else d - 1

/-- The date targeted by the 27_7 download script (line 29):
unconditionally `datetime.now() - timedelta(days=1)`. -/
def yesterdayTarget (d : ℕ) : ℕ := d - 1

/-- `MAPPING_KEY` of both download scripts. -/
def MAPPING_KEY : List (String × String) :=
  [("VN30", "VN30"), ("HNX30", "HNX30"), ("UPCOM", "HNXUpcomIndex"),
   ("VNXALL", "VNXALL"), ("VNINDEX", "VNINDEX"), ("HNXINDEX", "HNXIndex")]

/-- Outcome of the `s3_client.get_object` + decode + `csv.reader` boundary:
either the parsed CSV rows, a `botocore` `ClientError` with its error code, or
any other exception. -/
inductive S3Fetch where
  | found : List (List String) → S3Fetch
  | clientError : String → S3Fetch
  | otherError : String → S3Fetch

/-- The result dict of the 27_7 download script `main`
(`success`, `last_day_gtdg`, `last_day_klgd`, plus `error` or `message`). -/
structure LastDayResult where
  success : Bool
  last_day_gtdg : List (String × ℚ)
  last_day_klgd : List (String × ℚ)
  error : Option String
  message : Option String

/-- Auxiliary for `pySplit`: split a character list at every occurrence of the
separator, keeping empty segments (Python `str.split(sep)` semantics for a
one-character separator). -/
def splitCharAux (sep : Char) : List Char → List (List Char)
  | [] => [[]]
  | c :: rest =>
    let r := splitCharAux sep rest
    if c = sep then [] :: r
    else (c :: r.headD []) :: r.tail

/-- Python `s.split("_")`-style splitting on a single-character separator.
Always returns a non-empty list (on `""` it returns `[""]`), which is why the
`if not base_name_parts` guard of the download scripts is dead code. -/
def pySplit (sep : Char) (s : String) : List String :=
  (splitCharAux sep s.toList).map String.mk

/-- Substring test (`pat in s` for Python strings). -/
def strContainsSub (s pat : String) : Bool :=
  (List.range (s.length + 1)).any (fun i => pat.toList.isPrefixOf (s.toList.drop i))

/-- The scan for the KLGD column (lines 64–70): the first header containing
`"KLGD"` and one of the `"triệu cp"` / `"triệu"` markers. -/
def findKlgdCol (headers : List String) : Option ℕ :=
  headers.findIdx? (fun h =>
    strContainsSub h "KLGD" && (strContainsSub h "triệu cp" || strContainsSub h "triệu"))

/-- `"".join(c for c in s if c.isdigit() or c in ".-")` applied to
`row[col].split(":")[0].strip()`. -/
def cleanNumeric (cell : String) : String :=
  String.mk ((((cell.splitOn ":").headD "").trim).toList.filter
    (fun c => c.isDigit || c == '.' || c == '-'))

/-- The row-processing loop of the 27_7 download script (lines 53–126).
State: the column triple once a header row was seen, and the two accumulated
maps.  A data row is processed only when long enough; a `float` failure on the
GTGD cell skips the row (the KLGD cell is then never reached), a `float` failure
on the KLGD cell keeps the GTGD entry already stored — mirroring the
`try/except ... continue` with sequential dict writes. -/
def parseRows : Option (ℕ × ℕ × ℕ) → List (String × ℚ) → List (String × ℚ) →
    List (List String) → LastDayResult
  | _, g, k, [] => ⟨true, g, k, none, none⟩
  | cols, g, k, row :: rest =>
    if row.isEmpty then parseRows cols g k rest
    else if row.contains "CHỈ SỐ" && row.contains "GTGD (tỷ)" && row.contains "KLGD (triệu cp)" then
      match findKlgdCol row with
      | none => ⟨false, [], [], some "KLGD (tri\u1EC7u cp) column not found in last day\x27s CSV.", none⟩
      | some kc => parseRows (some (row.indexOf "CHỈ SỐ", row.indexOf "GTGD (tỷ)", kc)) g k rest
    else
      match cols with
      | none => parseRows none g k rest
      | some (ic, gc, kc) =>
        if max ic (max gc kc) < row.length then
          match aget MAPPING_KEY ((row.getD ic "").trim) with
          | none => parseRows cols g k rest
          | some mapped =>
            let gclean := cleanNumeric (row.getD gc "")
            let gStep : Option (List (String × ℚ)) :=
              if gclean = "" then some g
              else
                match pyFloatOfString gclean with
                | some q => some (aset g mapped q)
                | none => none
            match gStep with
            | none => parseRows cols g k rest
            | some g1 =>
              let kclean := cleanNumeric (row.getD kc "")
              if kclean = "" then parseRows cols g1 k rest
              else
                match pyFloatOfString kclean with
                | some q => parseRows cols g1 (aset k mapped q) rest
                | none => parseRows cols g1 k rest
        else parseRows cols g k rest

/-- Embedding of `main` of the 27_7 download script.  `dateStr` stands for
`yesterday.strftime("%Y%m%d")`; `fetch` is the outcome of the object-storage
request for `f"{base_name}_{dateStr}.csv"`.  A `ClientError` whose code is
`"NoSuchKey"` is the legitimate first-day case and yields an
empty-but-successful result. -/
def downloadMain (csv_key dateStr : String) (fetch : S3Fetch) : LastDayResult :=
  let parts := pySplit '_' csv_key
  if parts.isEmpty then
    ⟨false, [], [], some "Invalid base_name structure in s3_config.", none⟩
  else
    let base := String.intercalate "_" parts.dropLast
    let key := base ++ "_" ++ dateStr ++ ".csv"
    match fetch with
    | .found rows => parseRows none [] [] rows
    | .clientError code =>
      if code = "NoSuchKey" then
        ⟨true, [], [], none, some ("Last day CSV not found at " ++ key ++ ".")⟩
      else ⟨false, [], [], some code, none⟩
    | .otherError e =>
      ⟨false, [], [], some ("Unexpected error processing last day\x27s CSV: " ++ e), none⟩

/-- The `last_day_data` dict as the downstream flow receives it from the
download script. -/
def LastDayResult.toDict (r : LastDayResult) : PyDict :=
  [("success", Val.vbool r.success),
   ("last_day_gtdg", Val.vdict (r.last_day_gtdg.map (fun p => (p.1, Val.vnum p.2)))),
   ("last_day_klgd", Val.vdict (r.last_day_klgd.map (fun p => (p.1, Val.vnum p.2))))]
  ++ (match r.error with | some e => [("error", Val.vstr e)] | none => [])
  ++ (match r.message with | some m => [("message", Val.vstr m)] | none => [])

/-!
### Fetch adapters
-/

/-- Outcome of the `requests.get` + `raise_for_status` + `.json()` boundary of a
fetch adapter: `ok` is an HTTP 200 response with its parsed JSON body; `exn`
covers network errors, the `HTTPError` raised by `raise_for_status` on a
non-2xx status, and JSON decode failures — all are caught by the single
`except Exception` handler of the adapter. -/
inductive FetchOutcome where
  | ok : Val → FetchOutcome
  | exn : String → FetchOutcome

/-- Python `key in container` for a string key: key membership for dicts,
element equality for lists (a non-string element never equals a string),
substring test for strings; on numbers, booleans and `None` the test raises
`TypeError` (`none`). -/
def pyContainsStr (container : Val) (key : String) : Option Bool :=
  match container with
  | .vdict d => some (aget d key).isSome
  | .vlist l => some (l.any (fun v => match v with | .vstr t => t == key | _ => false))
  | .vstr s => some (strContainsSub s key)
  | _ => none

/-- Python `container[key]` for a string key: dict subscription; on any other
receiver a string subscript raises `TypeError` (`none`).  A missing dict key
raises `KeyError`, also `none`. -/
def pySubscript (v : Val) (key : String) : Option Val :=
  match v with
  | .vdict d => aget d key
  | _ => none

/-- Python `v.get(key, dflt)`: only dicts have `.get`; anything else raises
`AttributeError` (`none`). -/
def pyGet (v : Val) (key : String) (dflt : Val) : Option Val :=
  match v with
  | .vdict d => some ((aget d key).getD dflt)
  | _ => none

/-- Python `v / d` for a positive rational constant `d`: numbers divide,
booleans coerce to 0/1; anything else raises `TypeError` (`none`). -/
def pyDivByConst (v : Val) (d : ℚ) : Option ℚ :=
  match v with
  | .vnum q => some (q / d)
  | .vbool b => some ((if b then 1 else 0) / d)
  | _ => none

/-- The failure record of `main` in `fetch_index_summary`:
`{"index_summary": [], "success": False, "error": e}`.  Exception messages are
abbreviated to the exception kind; no caller inspects them. -/
def fisFailure (e : String) : PyDict :=
  [("index_summary", Val.vlist []), ("success", Val.vbool false), ("error", Val.vstr e)]

/-- `key_fields` of `fetch_index_summary`. -/
def fisFields : List String :=
  ["indexId", "indexValue", "change", "changePercent", "allQty", "allValue",
   "advances", "nochanges", "declines"]

/-- The per-item extraction of `fetch_index_summary`:
`temp_dict[key] = item.get(key, "N/A")` for each of the nine `key_fields`. -/
def extractFis (d : PyDict) : PyDict :=
  fisFields.map (fun k => (k, (aget d k).getD (Val.vstr "N/A")))

/-- Embedding of `main` of `bonny_flow.flow/fetch_index_summary.inline_script.py`.
The whole body runs inside one `try`, so every internal exception lands in the
failure record; a falsy body or one without a `"data"` key is the
`"No data returned"` failure. -/
def fetch_index_summary_main (o : FetchOutcome) : PyDict :=
  match o with
  | .exn e => fisFailure e
  | .ok data =>
    if pyTruthy data = false then fisFailure "No data returned"
    else
      match pyContainsStr data "data" with
      | none => fisFailure "TypeError"
      | some false => fisFailure "No data returned"
      | some true =>
        match pySubscript data "data" with
        | none => fisFailure "TypeError"
        | some dv =>
          match dv with
          | .vlist items =>
            match items.mapM (fun it =>
                match it with
                | .vdict d => some (extractFis d)
                | _ => none) with
            | none => fisFailure "AttributeError"
            | some outs =>
              [("index_summary", Val.vlist (outs.map Val.vdict)),
               ("success", Val.vbool true),
               ("data_quality", Val.vdict
                 [("records_processed", Val.vnum outs.length),
                  ("source_records", Val.vnum items.length)])]
          | _ => fisFailure "TypeError"

/-- The failure record of `main` in `fetch_khoi_ngoai`:
`{"khoi_ngoai": {"vol": 0, "net_value": 0}, "success": False, "error": e}`. -/
def knFailure (e : String) : PyDict :=
  [("khoi_ngoai", Val.vdict [("vol", Val.vnum 0), ("net_value", Val.vnum 0)]),
   ("success", Val.vbool false), ("error", Val.vstr e)]

/-- `KEY_FORWARD_COMPATIBLE` of `fetch_khoi_ngoai`. -/
def KEY_FORWARD_COMPATIBLE : List (String × String) :=
  [("HSX", "VNINDEX"), ("HNX", "HNXINDEX"), ("UPCOM", "UPINDEX")]

/-- Embedding of `main` of
`report_chung_khoan___improved_version___27_7.flow/fetch_khoi_ngoai.inline_script.py`.
An empty `stock_market` falls back to `"HSX"`, the market code is upper-cased
and translated through `KEY_FORWARD_COMPATIBLE`; a market missing from
`data["data"]` is an explicit failure return, and every internal exception is
caught into the failure record. -/
def fetch_khoi_ngoai_main (stock_market : String) (o : FetchOutcome) : PyDict :=
  match o with
  | .exn e => knFailure e
  | .ok data =>
    if pyTruthy data = false then knFailure "No data returned"
    else
      match pyContainsStr data "data" with
      | none => knFailure "TypeError"
      | some false => knFailure "No data returned"
      | some true =>
        let sm0 := if stock_market = "" then "HSX" else stock_market.toUpper
        let sm := (aget KEY_FORWARD_COMPATIBLE sm0).getD sm0
        match pySubscript data "data" with
        | none => knFailure "TypeError"
        | some dv =>
          match pyContainsStr dv sm with
          | none => knFailure "TypeError"
          | some false => knFailure ("Market " ++ sm ++ " not found")
          | some true =>
            match pySubscript dv sm with
            | none => knFailure "TypeError"
            | some mv =>
              match pyGet mv "data" (Val.vdict []) with
              | none => knFailure "AttributeError"
              | some md =>
                match pyGet md "tradingVolumeChart_first" (Val.vdict []) with
                | none => knFailure "AttributeError"
                | some tvc =>
                  match pyGet tvc "value" (Val.vnum 0) with
                  | none => knFailure "AttributeError"
                  | some vv =>
                    match pyDivByConst vv (10 ^ 6) with
                    | none => knFailure "TypeError"
                    | some vol =>
                      match pyGet md "tradingValueChart_first" (Val.vdict []) with
                      | none => knFailure "AttributeError"
                      | some tvc2 =>
                        match pyGet tvc2 "value" (Val.vnum 0) with
                        | none => knFailure "AttributeError"
                        | some vv2 =>
                          match pyDivByConst vv2 (10 ^ 9) with
                          | none => knFailure "TypeError"
                          | some nv =>
                            [("khoi_ngoai", Val.vdict
                               [("vol", Val.vnum vol), ("net_value", Val.vnum nv)]),
                             ("success", Val.vbool true),
                             ("data_quality", Val.vdict
                               [("market_used", Val.vstr sm),
                                ("volume_millions", Val.vnum vol),
                                ("value_billions", Val.vnum nv)])]

/-!
### Heap model of `merge_inputs` (for the no-input-mutation property)

The pure model above gives value semantics and cannot express mutation.  The
heap model below represents Python objects explicitly: immutable atoms are
inline, every list and dict is a heap cell addressed by a natural number, and
`merge_inputs` is re-embedded as a heap transformer that performs exactly the
allocations (`item.copy()`, the fresh `merged`/`processed_summary`/metadata
objects) and in-place writes of the source.
-/

/-- Immutable Python values. -/
inductive Atom where
  | astr : String → Atom
  | anum : ℚ → Atom
  | abool : Bool → Atom
  | anull : Atom

/-- A Python reference: an immutable atom or a pointer to a heap object. -/
inductive HVal where
  | atom : Atom → HVal
  | ref : ℕ → HVal

/-- A mutable heap object: a dict or a list. -/
inductive HObj where
  | hdict : List (String × HVal) → HObj
  | hlist : List HVal → HObj

/-- The heap: objects indexed by allocation order. -/
abbrev Heap := List HObj

/-- Allocate a fresh object, returning the new heap and the fresh address. -/
def halloc (h : Heap) (o : HObj) : Heap × ℕ := (h ++ [o], h.length)

/-- Overwrite the object at an address (in-place mutation). -/
def hset (h : Heap) (a : ℕ) (o : HObj) : Heap := h.set a o

/-- Truthiness of an atom. -/
def atomTruthy : Atom → Bool
  | .astr s => !(s == "")
  | .anum q => !(q == 0)
  | .abool b => b
  | .anull => false

/-- `float()` of an atom. -/
def atomFloat : Atom → Option ℚ
  | .anum q => some q
  | .abool b => some (if b then 1 else 0)
  | .astr s => pyFloatOfString s
  | .anull => none

/-- `str()` of an atom (see `pyStr`); heap objects are rendered as a
placeholder, no claim inspects these strings. -/
def hvalStr : HVal → String
  | .atom (.astr s) => s
  | .atom (.anum q) => toString q.num ++ (if q.den = 1 then ".0" else "/" ++ toString q.den)
  | .atom (.abool b) => if b then "True" else "False"
  | .atom .anull => "None"
  | .ref _ => "<object>"

/-- Truthiness of a reference: atoms directly, containers by emptiness
(a dangling address is `none`; no well-formed program state produces one). -/
def htruthy (h : Heap) : HVal → Option Bool
  | .atom a => some (atomTruthy a)
  | .ref n =>
    match h[n]? with
    | some (.hdict d) => some (!d.isEmpty)
    | some (.hlist l) => some (!l.isEmpty)
    | none => none

/-- `float()` of a reference: lists and dicts raise `TypeError`. -/
def hfloat : HVal → Option ℚ
  | .atom a => atomFloat a
  | .ref _ => none

/-- `x == "N/A"` on references: containers never equal a string. -/
def hIsNA : HVal → Bool
  | .atom (.astr s) => s == "N/A"
  | _ => false

/-- Heap version of `prevLookup` (the `.get(index_id, 0)` on a previous-day
map reference). -/
def prevLookupH (h : Heap) (src idv : HVal) : Option HVal :=
  match src with
  | .ref n =>
    match h[n]? with
    | some (.hdict d) =>
      match idv with
      | .atom (.astr s) => some ((aget d s).getD (.atom (.anum 0)))
      | .atom _ => some (.atom (.anum 0))
      | .ref _ => none
    | _ => none
  | .atom _ => none

/-- Heap version of the `allQty` try-block, as the content transformation of
the (freshly copied) item dict. -/
def tryQtyH (k : ℚ) (d : List (String × HVal)) : List (String × HVal) :=
  match aget d "allQty" with
  | none => d
  | some v =>
    if hIsNA v then d
    else
      match hfloat v with
      | none => d
      | some q =>
        let cur := q / 10 ^ 6
        let d1 := aset d "allQty" (.atom (.anum cur))
        if k = 0 then d1
        else
          aset (aset d1 "klgd_change_percent"
            (.atom (.anum (roundTo 2 ((cur - k) / k * 100)))))
            "klgd_change_amount" (.atom (.anum (roundTo 3 (cur - k))))

/-- Heap version of the `allValue` try-block. -/
def tryValueH (g : ℚ) (d : List (String × HVal)) : List (String × HVal) :=
  match aget d "allValue" with
  | none => d
  | some v =>
    if hIsNA v then d
    else
      match hfloat v with
      | none => d
      | some q =>
        let cur := q / 10 ^ 9
        let d1 := aset d "allValue" (.atom (.anum cur))
        if g = 0 then d1
        else
          aset (aset d1 "gtdg_change_percent"
            (.atom (.anum (roundTo 2 ((cur - g) / g * 100)))))
            "gtdg_change_amount" (.atom (.anum (roundTo 3 (cur - g))))

/-- Heap version of the per-item body: `item.copy()` allocates a fresh dict,
the previous-day lookups read the heap, and all writes hit only the fresh copy.
Returns the address of the enriched copy. -/
def processItemH (gm km : HVal) (h : Heap) (it : HVal) : Option (Heap × ℕ) :=
  match it with
  | .ref ia =>
    match h[ia]? with
    | some (.hdict idict) =>
      let p := halloc h (.hdict idict)
      let idv := (aget idict "indexId").getD (.atom .anull)
      do
        let gv ← prevLookupH p.1 gm idv
        let g ← hfloat gv
        let kv ← prevLookupH p.1 km idv
        let k ← hfloat kv
        let d0 := aset (aset idict "gtdg_last_day" (.atom (.anum g)))
          "klgd_last_day" (.atom (.anum k))
        some (hset p.1 p.2 (.hdict (tryValueH g (tryQtyH k d0))), p.2)
    | _ => none
  | .atom _ => none

/-- The `for item in data["index_summary"]` loop: enrich each item and append
its copy to the fresh `processed_summary` list at address `pa`. -/
def summaryLoopH (gm km : HVal) (pa : ℕ) : Heap → List HVal → Option Heap
  | h, [] => some h
  | h, it :: rest => do
    let pr ← processItemH gm km h it
    match pr.1[pa]? with
    | some (.hlist l) =>
      summaryLoopH gm km pa (hset pr.1 pa (.hlist (l ++ [.ref pr.2]))) rest
    | _ => none

/-- Heap version of the truthy-`index_summary` processing: allocate the fresh
`processed_summary` list and run the item loop.  A truthy non-list raises. -/
def processSummaryH (gm km : HVal) (h : Heap) (v : HVal) : Option (Heap × ℕ) :=
  match v with
  | .ref a =>
    match h[a]? with
    | some (.hlist items) =>
      let p := halloc h (.hlist [])
      (summaryLoopH gm km p.2 p.1 items).map (fun h2 => (h2, p.2))
    | _ => none
  | .atom _ => none

/-- `merged[target_key] = v`: in-place write into the merged dict at `ma`. -/
def writeMergedH (h : Heap) (ma : ℕ) (k : String) (v : HVal) : Option Heap :=
  match h[ma]? with
  | some (.hdict md) => some (hset h ma (.hdict (aset md k v)))
  | _ => none

/-- Heap version of `storeKey`. -/
def storeKeyH (gm km : HVal) (d : List (String × HVal)) (ma : ℕ) (h : Heap)
    (k : String) : Option Heap :=
  match aget d k with
  | none => some h
  | some v =>
    if k = "index_summary" then do
      let t ← htruthy h v
      if t then do
        let pr ← processSummaryH gm km h v
        writeMergedH pr.1 ma k (.ref pr.2)
      else writeMergedH h ma k v
    else writeMergedH h ma k v

/-- Heap version of `storeKeys`: fold over the recognized keys. -/
def storeKeysH (gm km : HVal) (d : List (String × HVal)) (ma : ℕ) :
    Heap → List String → Option Heap
  | h, [] => some h
  | h, k :: ks => do
    storeKeysH gm km d ma (← storeKeyH gm km d ma h k) ks

/-- The error string of the heap model. -/
def moduleErrorH (i : ℕ) (d : List (String × HVal)) : String :=
  "Module " ++ toString i ++ ": " ++ hvalStr ((aget d "error").getD (.atom (.astr "Unknown error")))

/-- Heap version of one record iteration. -/
def processRecordH (gm km : HVal) (ma : ℕ) (i : ℕ) (h : Heap) (succ : ℕ)
    (errs : List String) (data : HVal) : Option (Heap × ℕ × List String) := do
  let t ← htruthy h data
  if t = false then some (h, succ, errs)
  else
    match data with
    | .ref a =>
      match h[a]? with
      | some (.hdict d) => do
        let sb ← htruthy h ((aget d "success").getD (.atom (.abool true)))
        let acc := if sb then (succ + 1, errs) else (succ, errs ++ [moduleErrorH i d])
        let h2 ← storeKeysH gm km d ma h mergeKeys
        some (h2, acc.1, acc.2)
      | _ => none
    | .atom _ => none

/-- Heap version of the record loop. -/
def recordLoopH (gm km : HVal) (ma : ℕ) : ℕ → Heap → ℕ → List String →
    List HVal → Option (Heap × ℕ × List String)
  | _, h, succ, errs, [] => some (h, succ, errs)
  | i, h, succ, errs, a :: rest => do
    let st ← processRecordH gm km ma i h succ errs a
    recordLoopH gm km ma (i + 1) st.1 st.2.1 st.2.2 rest

/-- Heap version of `validate_data_quality` run over the merged dict at `ma`:
reads only, then allocates the issues/warnings lists and the report dict. -/
def validateH (h : Heap) (ma : ℕ) (now : String) : Option (Heap × ℕ) :=
  match h[ma]? with
  | some (.hdict md) => do
    let indexOk ← htruthy h ((aget md "index_summary").getD (.atom .anull))
    let issues := if indexOk then ([] : List String) else ["Missing index summary data"]
    let knOk ← htruthy h ((aget md "khoi_ngoai").getD (.atom .anull))
    let w0 := if knOk then ([] : List String) else ["Missing khoi ngoai data"]
    let w1 ← requiredFields.foldlM (fun acc f =>
      match aget md f with
      | none => some (acc ++ ["Missing or empty " ++ f])
      | some v => (htruthy h v).map (fun t =>
          if t then acc else acc ++ ["Missing or empty " ++ f])) []
    let pi := halloc h (.hlist (issues.map (fun s => HVal.atom (.astr s))))
    let pw := halloc pi.1 (.hlist ((w0 ++ w1).map (fun s => HVal.atom (.astr s))))
    let pq := halloc pw.1 (.hdict
      [("passed", .atom (.abool indexOk)),
       ("issues", .ref pi.2),
       ("warnings", .ref pw.2),
       ("timestamp", .atom (.astr now))])
    some (pq.1, pq.2)
  | _ => none

/-- The body of the heap-level merge once the two previous-day map references
`gm` / `km` are in hand: allocate the fresh merged dict, run the record loop,
then attach `execution_metadata` and `data_quality`. -/
def mergeCoreH (gm km : HVal) (h : Heap) (args : List HVal) (now : String) :
    Option (Heap × ℕ) :=
  let pm := halloc h (.hdict [])
  do
    let st ← recordLoopH gm km pm.2 0 pm.1 0 [] args
    let pe := halloc st.1 (.hlist (st.2.2.map (fun e => HVal.atom (.astr e))))
    let rate : ℚ := if 0 < args.length then (st.2.1 : ℚ) / (args.length : ℚ) else 0
    let pmeta := halloc pe.1 (.hdict
      [("success_rate", .atom (.anum rate)),
       ("successful_modules", .atom (.anum st.2.1)),
       ("total_modules", .atom (.anum args.length)),
       ("errors", .ref pe.2),
       ("timestamp", .atom (.astr now))])
    let h4 ← writeMergedH pmeta.1 pm.2 "execution_metadata" (.ref pmeta.2)
    let pq ← validateH h4 pm.2 now
    let h6 ← writeMergedH pq.1 pm.2 "data_quality" (.ref pq.2)
    some (h6, pm.2)

/-- Heap embedding of `merge_inputs(args, last_day_data)`: `args` is the list of
record references, `ld` the address of the `last_day_data` dict.  Returns the
final heap and the address of the freshly allocated merged dict.  The defaults
of `last_day_data.get("last_day_gtdg", {})` / `...klgd...` are freshly
allocated empty dicts, as in Python. -/
def mergeInputsH (h : Heap) (args : List HVal) (ld : ℕ) (now : String) :
    Option (Heap × ℕ) :=
  match h[ld]? with
  | some (.hdict ldd) =>
    let pg : Heap × HVal :=
      match aget ldd "last_day_gtdg" with
      | some v => (h, v)
      | none => let p := halloc h (.hdict []); (p.1, .ref p.2)
    let pk : Heap × HVal :=
      match aget ldd "last_day_klgd" with
      | some v => (pg.1, v)
      | none => let p := halloc pg.1 (.hdict []); (p.1, .ref p.2)
    mergeCoreH pg.2 pk.2 pk.1 args now
  | _ => none

/-- The frame property of a heap transformation result: every address that
existed before is unchanged (the conclusion of the no-mutation claim). -/
def frameOK (h : Heap) : Option (Heap × ℕ) → Prop
  | none => True
  | some (h2, _) => h.length ≤ h2.length ∧ ∀ i, i < h.length → h2[i]? = h[i]?

/-!
### Concrete inputs and claim-side definitions used by the theorems below
-/

/-- A concrete `index_summary` item used to witness the amended C1. -/
def itemC1 : PyDict :=
  [("indexId", Val.vstr "VNINDEX"), ("allQty", Val.vnum 3000000), ("allValue", Val.vnum 2000000000)]

/-- The scenario index item of the spec: raw `allQty` 5,000,000 and raw
`allValue` 9,000,000,000 for `VNINDEX`. -/
def scenItem : PyDict :=
  [("indexId", Val.vstr "VNINDEX"), ("allQty", Val.vnum 5000000),
   ("allValue", Val.vnum 9000000000)]

/-- The scenario fetch records. -/
def scenArgs : List Val := [Val.vdict [("index_summary", Val.vlist [Val.vdict scenItem])]]

/-- The scenario previous-day snapshot (already in millions/billions). -/
def scenLD : PyDict :=
  [("last_day_gtdg", Val.vdict [("VNINDEX", Val.vnum 8)]),
   ("last_day_klgd", Val.vdict [("VNINDEX", Val.vnum 4)])]

/-- The contribution of one record to the final value under key `k`: a truthy dict
record containing `k` overwrites the accumulator, every other record leaves it. -/
def lastValStep (k : String) (acc : Option Val) (a : Val) : Option Val :=
  match a with
  | Val.vdict d =>
    if pyTruthy (Val.vdict d) then
      match aget d k with
      | some v => some v
      | none => acc
    else acc
  | _ => acc

/-- The value stored by the last truthy record containing key `k`. -/
def lastVal (k : String) (args : List Val) : Option Val :=
  args.foldl (lastValStep k) none

/-- The records actually counted as successful by `merge_inputs`: truthy
(non-empty) dict records whose `success` flag is truthy or absent.  Falsy
records are skipped by `if not data: continue` before the success check. -/
def recSuccess (a : Val) : Bool :=
  match a with
  | Val.vdict d => pyTruthy (Val.vdict d) && pyTruthy ((aget d "success").getD (Val.vbool true))
  | _ => false

/-- The wording used by the claim for `successful_modules` — the number of records whose
`success` flag is true or absent — written from the spec sentence for
comparison with the count of the code (no skipping of empty records). -/
def specSuccessCount (args : List Val) : ℕ :=
  args.countP (fun a =>
    match a with
    | Val.vdict d =>
      match aget d "success" with
      | none => true
      | some (Val.vbool true) => true
      | _ => false
    | _ => false)

/-- Heap evolution that only grows the heap and never changes addresses
below `N`. -/
def extFrom (N : ℕ) (h h2 : Heap) : Prop :=
  h.length ≤ h2.length ∧ ∀ i, i < N → h2[i]? = h[i]?

/-- A concrete four-object heap: an index item, the `index_summary` list, a
record dict, and an empty `last_day_data` dict. -/
def heapC10 : Heap :=
  [HObj.hdict [("indexId", HVal.atom (Atom.astr "VNINDEX")),
               ("allQty", HVal.atom (Atom.anum 5000000))],
   HObj.hlist [HVal.ref 0],
   HObj.hdict [("index_summary", HVal.ref 1), ("khoi_tu_doanh", HVal.atom (Atom.anum 3))],
   HObj.hdict []]

/-!
### Association-list lemmas
-/

theorem aget_aset_self {α : Type} (d : List (String × α)) (k : String) (v : α) :
    aget (aset d k v) k = some v := by
  induction d with
  | nil => simp [aset, aget]
  | cons hd tl ih =>
    obtain ⟨k1, v1⟩ := hd
    by_cases hk : k1 = k
    · simp [aset, hk, aget]
    · simp [aset, hk, aget, ih]

theorem aget_aset_ne {α : Type} (d : List (String × α)) (k key : String) (v : α)
    (h : k ≠ key) : aget (aset d k v) key = aget d key := by
  induction d with
  | nil => simp [aset, aget, h]
  | cons hd tl ih =>
    obtain ⟨k1, v1⟩ := hd
    by_cases hk : k1 = k
    · subst hk
      simp [aset, aget, h]
    · simp [aset, hk, aget, ih]

/-!
### Frame lemmas for the two try-blocks
-/

theorem aget_tryQty_ne (k : ℚ) (d : PyDict) (key : String)
    (h1 : key ≠ "allQty") (h2 : key ≠ "klgd_change_percent")
    (h3 : key ≠ "klgd_change_amount") :
    aget (tryQty k d) key = aget d key := by
  unfold tryQty
  cases haq : aget d "allQty" with
  | none => rfl
  | some v =>
    by_cases hna : isNA v
    · simp [hna]
    · simp only [hna, Bool.false_eq_true, if_false]
      cases hf : pyFloat v with
      | none => rfl
      | some q =>
        by_cases hk : k = 0
        · simp [hk, aget_aset_ne _ _ _ _ (Ne.symm h1)]
        · simp [hk, aget_aset_ne _ _ _ _ (Ne.symm h1),
            aget_aset_ne _ _ _ _ (Ne.symm h2), aget_aset_ne _ _ _ _ (Ne.symm h3)]

theorem aget_tryQty_zero_ne (d : PyDict) (key : String) (h1 : key ≠ "allQty") :
    aget (tryQty 0 d) key = aget d key := by
  unfold tryQty
  cases haq : aget d "allQty" with
  | none => rfl
  | some v =>
    by_cases hna : isNA v
    · simp [hna]
    · simp only [hna, Bool.false_eq_true, if_false]
      cases hf : pyFloat v with
      | none => rfl
      | some q => simp [aget_aset_ne _ _ _ _ (Ne.symm h1)]

theorem aget_tryValue_ne (g : ℚ) (d : PyDict) (key : String)
    (h1 : key ≠ "allValue") (h2 : key ≠ "gtdg_change_percent")
    (h3 : key ≠ "gtdg_change_amount") :
    aget (tryValue g d) key = aget d key := by
  unfold tryValue
  cases haq : aget d "allValue" with
  | none => rfl
  | some v =>
    by_cases hna : isNA v
    · simp [hna]
    · simp only [hna, Bool.false_eq_true, if_false]
      cases hf : pyFloat v with
      | none => rfl
      | some q =>
        by_cases hg : g = 0
        · simp [hg, aget_aset_ne _ _ _ _ (Ne.symm h1)]
        · simp [hg, aget_aset_ne _ _ _ _ (Ne.symm h1),
            aget_aset_ne _ _ _ _ (Ne.symm h2), aget_aset_ne _ _ _ _ (Ne.symm h3)]

theorem aget_tryValue_zero_ne (d : PyDict) (key : String) (h1 : key ≠ "allValue") :
    aget (tryValue 0 d) key = aget d key := by
  unfold tryValue
  cases haq : aget d "allValue" with
  | none => rfl
  | some v =>
    by_cases hna : isNA v
    · simp [hna]
    · simp only [hna, Bool.false_eq_true, if_false]
      cases hf : pyFloat v with
      | none => rfl
      | some q => simp [aget_aset_ne _ _ _ _ (Ne.symm h1)]

theorem enrichItem_eq (gm km : Val) (item : PyDict) (g k : ℚ)
    (hg : lookFloat gm item = some g) (hk : lookFloat km item = some k) :
    enrichItem gm km item = some (tryValue g (tryQty k
      (aset (aset item "gtdg_last_day" (Val.vnum g)) "klgd_last_day" (Val.vnum k)))) := by
  simp [enrichItem, hg, hk]

/-!
### Claim C1
-/

unseal Rat.mul Rat.inv Rat.add Rat.sub in
/-- C1 counterexample: with the previous-day snapshot absent (so the looked-up
KLGD value defaults to 0), `merge_inputs` does not set `klgd_change_percent` to
0 — the `ZeroDivisionError` is caught by the bare `except: pass` after `allQty`
was already converted, so the delta key is simply absent from the enriched
entry, refuting "the computed delta equals 0". -/
theorem merge_zero_prev_delta_cex :
    ∃ m it,
      merge_inputs "t"
        [Val.vdict [("index_summary", Val.vlist
          [Val.vdict [("indexId", Val.vstr "VNINDEX"), ("allQty", Val.vnum 5000000)]])]]
        [] = some m
      ∧ aget m "index_summary" = some (Val.vlist [Val.vdict it])
      ∧ aget it "allQty" = some (Val.vnum 5)
      ∧ aget it "klgd_change_percent" = none
      ∧ (aget it "klgd_change_percent").isSome = false := by
  exact ⟨_, _, rfl, rfl, rfl, rfl, rfl⟩

/-- C1 (amended): for every `index_summary` entry whose previous-day KLGD
(resp. GTGD) value is zero or absent from the previous-day snapshot, the
enrichment of `merge_inputs` leaves the entry without a `klgd_change_percent` /
`klgd_change_amount` (resp. `gtdg_change_percent` / `gtdg_change_amount`) key:
the `ZeroDivisionError` is swallowed, the computation never propagates an
exception, and no `inf`/`NaN` (and no `0`) delta is ever produced. -/
theorem enrich_zero_prev_omits_delta (gm km : Val) (item : PyDict) (g k : ℚ)
    (hg : lookFloat gm item = some g) (hk : lookFloat km item = some k) :
    ∃ it2, enrichItem gm km item = some it2 ∧
      (k = 0 → aget item "klgd_change_percent" = none →
        aget it2 "klgd_change_percent" = none) ∧
      (k = 0 → aget item "klgd_change_amount" = none →
        aget it2 "klgd_change_amount" = none) ∧
      (g = 0 → aget item "gtdg_change_percent" = none →
        aget it2 "gtdg_change_percent" = none) ∧
      (g = 0 → aget item "gtdg_change_amount" = none →
        aget it2 "gtdg_change_amount" = none) := by
  refine ⟨_, enrichItem_eq gm km item g k hg hk, ?_, ?_, ?_, ?_⟩
  · rintro rfl hnone
    rw [aget_tryValue_ne _ _ _ (by decide) (by decide) (by decide),
      aget_tryQty_zero_ne _ _ (by decide),
      aget_aset_ne _ _ _ _ (by decide), aget_aset_ne _ _ _ _ (by decide)]
    exact hnone
  · rintro rfl hnone
    rw [aget_tryValue_ne _ _ _ (by decide) (by decide) (by decide),
      aget_tryQty_zero_ne _ _ (by decide),
      aget_aset_ne _ _ _ _ (by decide), aget_aset_ne _ _ _ _ (by decide)]
    exact hnone
  · rintro rfl hnone
    rw [aget_tryValue_zero_ne _ _ (by decide),
      aget_tryQty_ne _ _ _ (by decide) (by decide) (by decide),
      aget_aset_ne _ _ _ _ (by decide), aget_aset_ne _ _ _ _ (by decide)]
    exact hnone
  · rintro rfl hnone
    rw [aget_tryValue_zero_ne _ _ (by decide),
      aget_tryQty_ne _ _ _ (by decide) (by decide) (by decide),
      aget_aset_ne _ _ _ _ (by decide), aget_aset_ne _ _ _ _ (by decide)]
    exact hnone

/-- Witness for the amended C1 at a concrete item with an empty previous-day
snapshot (both looked-up values are 0). -/
theorem enrich_zero_prev_omits_delta_witness :
    lookFloat (Val.vdict []) itemC1 = some 0 ∧
    ∃ it2, enrichItem (Val.vdict []) (Val.vdict []) itemC1 = some it2 ∧
      ((0 : ℚ) = 0 → aget itemC1 "klgd_change_percent" = none →
        aget it2 "klgd_change_percent" = none) ∧
      ((0 : ℚ) = 0 → aget itemC1 "klgd_change_amount" = none →
        aget it2 "klgd_change_amount" = none) ∧
      ((0 : ℚ) = 0 → aget itemC1 "gtdg_change_percent" = none →
        aget it2 "gtdg_change_percent" = none) ∧
      ((0 : ℚ) = 0 → aget itemC1 "gtdg_change_amount" = none →
        aget it2 "gtdg_change_amount" = none) :=
  ⟨rfl, enrich_zero_prev_omits_delta (Val.vdict []) (Val.vdict []) itemC1 0 0 rfl rfl⟩

/-!
### Claims C2 and C9
-/

theorem validate_congr (now : String) (md1 md2 : PyDict)
    (h1 : aget md1 "index_summary" = aget md2 "index_summary")
    (h2 : aget md1 "khoi_ngoai" = aget md2 "khoi_ngoai")
    (h3 : aget md1 "top_sectors" = aget md2 "top_sectors")
    (h4 : aget md1 "top_netforeign" = aget md2 "top_netforeign")
    (h5 : aget md1 "top_interested" = aget md2 "top_interested")
    (h6 : aget md1 "khoi_tu_doanh" = aget md2 "khoi_tu_doanh") :
    validate_data_quality now md1 = validate_data_quality now md2 := by
  simp only [validate_data_quality, requiredFields, List.filterMap_cons, List.filterMap_nil,
    h1, h2, h3, h4, h5, h6]

/-- C2 counterexample: a merged map that contains a non-empty `index_summary`
and nothing else passes validation (`passed = true`) although the other
"required" keys — here `khoi_tu_doanh`, one of the 8 — are absent, refuting
"passed = false iff at least one of the 8 required keys is absent". -/
theorem validate_required_keys_cex :
    (validate_data_quality "t" [("index_summary", Val.vlist [Val.vnum 1])]).passed = true
    ∧ aget [("index_summary", Val.vlist [Val.vnum 1])] "khoi_tu_doanh" = (none : Option Val)
    ∧ aget [("index_summary", Val.vlist [Val.vnum 1])] "impact_up" = (none : Option Val) := by
  exact ⟨rfl, rfl, rfl⟩

/-- C2 (amended): the validator fails (`passed = false`) if and only if
`index_summary` is absent or empty/falsy in the merged map; the five other
checked keys (`khoi_ngoai` and the four `required_fields`) influence only the
warnings, and `impact_up` / `impact_down` are not inspected at all (rebinding
them never changes the verdict). -/
theorem validate_passed_iff_index_summary (now : String) (md : PyDict) :
    ((validate_data_quality now md).passed = false ↔
      pyTruthy ((aget md "index_summary").getD Val.vnull) = false)
    ∧ (∀ v w : Val, validate_data_quality now
        (aset (aset md "impact_up" v) "impact_down" w) = validate_data_quality now md)
    ∧ (∀ f v, f ∈ "khoi_ngoai" :: requiredFields →
        (validate_data_quality now (aset md f v)).passed =
          (validate_data_quality now md).passed) := by
  refine ⟨?_, ?_, ?_⟩
  · unfold validate_data_quality
    by_cases h : pyTruthy ((aget md "index_summary").getD Val.vnull) <;> simp [h]
  · intro v w
    apply validate_congr <;>
      rw [aget_aset_ne _ _ _ _ (by decide), aget_aset_ne _ _ _ _ (by decide)]
  · intro f v hf
    have hcongr : validate_data_quality now (aset md f v) = validate_data_quality now md ∨
        (validate_data_quality now (aset md f v)).passed =
          (validate_data_quality now md).passed := by
      right
      have hne : f ≠ "index_summary" := by
        simp only [requiredFields, List.mem_cons, List.not_mem_nil, or_false] at hf
        rcases hf with rfl | rfl | rfl | rfl | rfl <;> decide
      unfold validate_data_quality
      rw [aget_aset_ne _ _ _ _ hne]
    rcases hcongr with h | h
    · rw [h]
    · exact h

/-- Witness for the amended C2 at a concrete map and field. -/
theorem validate_passed_iff_index_summary_witness :
    ((validate_data_quality "t" [("index_summary", Val.vlist [Val.vnum 1])]).passed = false ↔
      pyTruthy ((aget [("index_summary", Val.vlist [Val.vnum 1])] "index_summary").getD
        Val.vnull) = false)
    ∧ (validate_data_quality "t"
        (aset [("index_summary", Val.vlist [Val.vnum 1])] "khoi_ngoai" (Val.vnum 2))).passed =
      (validate_data_quality "t" [("index_summary", Val.vlist [Val.vnum 1])]).passed :=
  ⟨(validate_passed_iff_index_summary "t" [("index_summary", Val.vlist [Val.vnum 1])]).1,
   (validate_passed_iff_index_summary "t" [("index_summary", Val.vlist [Val.vnum 1])]).2.2
     "khoi_ngoai" (Val.vnum 2) (by simp [requiredFields])⟩

/-- C9: the verdict of the validator is internally consistent — for every merged
map, `passed` is `true` exactly when the `issues` list is empty (the only
statement that flips `passed` also records an issue); the embedding is a total
function, so no dict input makes it raise. -/
theorem validate_passed_eq_issues_isEmpty (now : String) (md : PyDict) :
    (validate_data_quality now md).passed = (validate_data_quality now md).issues.isEmpty := by
  unfold validate_data_quality
  by_cases h : pyTruthy ((aget md "index_summary").getD Val.vnull) <;> simp [h]

/-!
### Claim C3
-/

theorem tryQty_eq (k q : ℚ) (d : PyDict) (v : Val)
    (hv : aget d "allQty" = some v) (hna : isNA v = false) (hf : pyFloat v = some q)
    (hk : k ≠ 0) :
    tryQty k d =
      aset (aset (aset d "allQty" (Val.vnum (q / 10 ^ 6)))
        "klgd_change_percent" (Val.vnum (roundTo 2 ((q / 10 ^ 6 - k) / k * 100))))
        "klgd_change_amount" (Val.vnum (roundTo 3 (q / 10 ^ 6 - k))) := by
  unfold tryQty
  rw [hv]
  simp [hna, hf, hk]

theorem tryValue_eq (g q : ℚ) (d : PyDict) (v : Val)
    (hv : aget d "allValue" = some v) (hna : isNA v = false) (hf : pyFloat v = some q)
    (hg : g ≠ 0) :
    tryValue g d =
      aset (aset (aset d "allValue" (Val.vnum (q / 10 ^ 9)))
        "gtdg_change_percent" (Val.vnum (roundTo 2 ((q / 10 ^ 9 - g) / g * 100))))
        "gtdg_change_amount" (Val.vnum (roundTo 3 (q / 10 ^ 9 - g))) := by
  unfold tryValue
  rw [hv]
  simp [hna, hf, hg]

unseal Rat.mul Rat.inv Rat.add Rat.sub in
/-- C3: for every `index_summary` entry, the merge enrichment divides the raw
`allQty` by 10^6 and the raw `allValue` by 10^9, and against a non-zero
previous value `p` it stores `round((c - p)/p*100, 2)` as the percentage delta;
on the spec scenario (raw 5,000,000 / 9,000,000,000 against previous 4 / 8)
`merge_inputs` yields `allQty = 5.0`, `allValue = 9.0`,
`klgd_change_percent = 25.0`, `gtdg_change_percent = 12.5`. -/
theorem merge_unit_conversion_and_delta :
    (∀ (gm km : Val) (item : PyDict) (g k q : ℚ) (v : Val),
      lookFloat gm item = some g → lookFloat km item = some k →
      aget item "allQty" = some v → isNA v = false → pyFloat v = some q → k ≠ 0 →
      ∃ it2, enrichItem gm km item = some it2 ∧
        aget it2 "allQty" = some (Val.vnum (q / 10 ^ 6)) ∧
        aget it2 "klgd_change_percent" =
          some (Val.vnum (roundTo 2 ((q / 10 ^ 6 - k) / k * 100))))
    ∧ (∀ (gm km : Val) (item : PyDict) (g k q : ℚ) (v : Val),
      lookFloat gm item = some g → lookFloat km item = some k →
      aget item "allValue" = some v → isNA v = false → pyFloat v = some q → g ≠ 0 →
      ∃ it2, enrichItem gm km item = some it2 ∧
        aget it2 "allValue" = some (Val.vnum (q / 10 ^ 9)) ∧
        aget it2 "gtdg_change_percent" =
          some (Val.vnum (roundTo 2 ((q / 10 ^ 9 - g) / g * 100))))
    ∧ (∃ m it, merge_inputs "t" scenArgs scenLD = some m
        ∧ aget m "index_summary" = some (Val.vlist [Val.vdict it])
        ∧ aget it "allQty" = some (Val.vnum 5)
        ∧ aget it "allValue" = some (Val.vnum 9)
        ∧ aget it "klgd_change_percent" = some (Val.vnum 25)
        ∧ aget it "gtdg_change_percent" = some (Val.vnum (25 / 2))) := by
  refine ⟨?_, ?_, ?_⟩
  · intro gm km item g k q v hg hk hv hna hf hk0
    refine ⟨_, enrichItem_eq gm km item g k hg hk, ?_, ?_⟩
    · rw [aget_tryValue_ne _ _ _ (by decide) (by decide) (by decide),
        tryQty_eq k q _ v (by
          rw [aget_aset_ne _ _ _ _ (by decide), aget_aset_ne _ _ _ _ (by decide)]
          exact hv) hna hf hk0,
        aget_aset_ne _ _ _ _ (by decide), aget_aset_ne _ _ _ _ (by decide), aget_aset_self]
    · rw [aget_tryValue_ne _ _ _ (by decide) (by decide) (by decide),
        tryQty_eq k q _ v (by
          rw [aget_aset_ne _ _ _ _ (by decide), aget_aset_ne _ _ _ _ (by decide)]
          exact hv) hna hf hk0,
        aget_aset_ne _ _ _ _ (by decide), aget_aset_self]
  · intro gm km item g k q v hg hk hv hna hf hg0
    refine ⟨_, enrichItem_eq gm km item g k hg hk, ?_, ?_⟩
    · rw [tryValue_eq g q _ v (by
          rw [aget_tryQty_ne _ _ _ (by decide) (by decide) (by decide),
            aget_aset_ne _ _ _ _ (by decide), aget_aset_ne _ _ _ _ (by decide)]
          exact hv) hna hf hg0,
        aget_aset_ne _ _ _ _ (by decide), aget_aset_ne _ _ _ _ (by decide), aget_aset_self]
    · rw [tryValue_eq g q _ v (by
          rw [aget_tryQty_ne _ _ _ (by decide) (by decide) (by decide),
            aget_aset_ne _ _ _ _ (by decide), aget_aset_ne _ _ _ _ (by decide)]
          exact hv) hna hf hg0,
        aget_aset_ne _ _ _ _ (by decide), aget_aset_self]
  · exact ⟨_, _, rfl, rfl, rfl, rfl, rfl, rfl⟩

/-- Witness for the universally quantified parts of C3 at the scenario item. -/
theorem merge_unit_conversion_and_delta_witness :
    lookFloat (Val.vdict [("VNINDEX", Val.vnum 8)]) scenItem = some 8 ∧
    lookFloat (Val.vdict [("VNINDEX", Val.vnum 4)]) scenItem = some 4 ∧
    (∃ it2, enrichItem (Val.vdict [("VNINDEX", Val.vnum 8)])
        (Val.vdict [("VNINDEX", Val.vnum 4)]) scenItem = some it2 ∧
      aget it2 "allQty" = some (Val.vnum ((5000000 : ℚ) / 10 ^ 6)) ∧
      aget it2 "klgd_change_percent" =
        some (Val.vnum (roundTo 2 (((5000000 : ℚ) / 10 ^ 6 - 4) / 4 * 100)))) :=
  ⟨rfl, rfl,
   merge_unit_conversion_and_delta.1 (Val.vdict [("VNINDEX", Val.vnum 8)])
     (Val.vdict [("VNINDEX", Val.vnum 4)]) scenItem 8 4 5000000
     (Val.vnum 5000000) rfl rfl rfl rfl rfl (by norm_num)⟩

/-!
### Claim C4
-/

theorem storeKey_none (gm km : Val) (d merged m1 : PyDict) (k0 : String)
    (hd : aget d k0 = none) (h : storeKey gm km d merged k0 = some m1) :
    m1 = merged := by
  unfold storeKey at h
  rw [hd] at h
  exact (Option.some_inj.mp h).symm

theorem storeKey_present (gm km : Val) (d merged m1 : PyDict) (k0 : String) (v : Val)
    (hd : aget d k0 = some v) (hk : k0 ≠ "index_summary")
    (h : storeKey gm km d merged k0 = some m1) :
    m1 = aset merged k0 v := by
  have he : storeKey gm km d merged k0 = some (aset merged k0 v) := by
    unfold storeKey
    rw [hd]
    have hc : (decide (k0 = "index_summary") && pyTruthy v) = false := by simp [hk]
    simp [hc]
  rw [he] at h
  exact (Option.some_inj.mp h).symm

theorem storeKey_frame (gm km : Val) (d merged m1 : PyDict) (k0 key : String)
    (h : storeKey gm km d merged k0 = some m1) (hne : key ≠ k0) :
    aget m1 key = aget merged key := by
  cases hd : aget d k0 with
  | none =>
    unfold storeKey at h
    rw [hd] at h
    rw [(Option.some_inj.mp h).symm]
  | some v =>
    by_cases hc : (decide (k0 = "index_summary") && pyTruthy v) = true
    · have he : storeKey gm km d merged k0 =
          Option.map (fun items => aset merged k0 (Val.vlist items)) (processSummary gm km v) := by
        unfold storeKey
        rw [hd]
        simp [hc]
      rw [he] at h
      obtain ⟨items, hitems, hm1⟩ := Option.map_eq_some'.mp h
      rw [← hm1, aget_aset_ne _ _ _ _ (Ne.symm hne)]
    · have he : storeKey gm km d merged k0 = some (aset merged k0 v) := by
        unfold storeKey
        rw [hd]
        simp only [Bool.not_eq_true] at hc
        simp [hc]
      rw [he] at h
      rw [← Option.some_inj.mp h, aget_aset_ne _ _ _ _ (Ne.symm hne)]

theorem storeKeys_frame (gm km : Val) (d : PyDict) (key : String) :
    ∀ (ks : List String) (merged m2 : PyDict),
      storeKeys gm km d merged ks = some m2 → key ∉ ks →
      aget m2 key = aget merged key := by
  intro ks
  induction ks with
  | nil =>
    intro merged m2 h _
    simp [storeKeys] at h
    rw [← h]
  | cons k0 ks ih =>
    intro merged m2 h hmem
    simp only [storeKeys, Option.bind_eq_bind, Option.bind_eq_some] at h
    obtain ⟨m1, h1, h2⟩ := h
    have hk0 : key ≠ k0 := fun hc => hmem (hc ▸ List.mem_cons_self k0 ks)
    have hks : key ∉ ks := fun hc => hmem (List.mem_cons_of_mem _ hc)
    rw [ih m1 m2 h2 hks, storeKey_frame gm km d merged m1 k0 key h1 hk0]

theorem storeKeys_aget (gm km : Val) (d : PyDict) (key : String)
    (hki : key ≠ "index_summary") :
    ∀ (ks : List String) (merged m2 : PyDict),
      storeKeys gm km d merged ks = some m2 → ks.Nodup → key ∈ ks →
      aget m2 key = (match aget d key with
        | some v => some v
        | none => aget merged key) := by
  intro ks
  induction ks with
  | nil =>
    intro merged m2 _ _ hmem
    exact absurd hmem (List.not_mem_nil key)
  | cons k0 ks ih =>
    intro merged m2 h hnd hmem
    simp only [storeKeys, Option.bind_eq_bind, Option.bind_eq_some] at h
    obtain ⟨m1, h1, h2⟩ := h
    rcases List.mem_cons.mp hmem with rfl | hmemks
    · have hnotin : key ∉ ks := (List.nodup_cons.mp hnd).1
      rw [storeKeys_frame gm km d key ks m1 m2 h2 hnotin]
      cases hd : aget d key with
      | none => rw [storeKey_none gm km d merged m1 key hd h1]
      | some v => rw [storeKey_present gm km d merged m1 key v hd hki h1, aget_aset_self]
    · have hne : key ≠ k0 := by
        rintro rfl
        exact (List.nodup_cons.mp hnd).1 hmemks
      rw [ih m1 m2 h2 (List.nodup_cons.mp hnd).2 hmemks]
      cases hd : aget d key with
      | none => rw [storeKey_frame gm km d merged m1 k0 key h1 hne]
      | some v => rfl

theorem processRecord_aget (gm km : Val) (i : ℕ) (st st2 : MState) (a : Val) (k : String)
    (hk : k ∈ mergeKeys) (hki : k ≠ "index_summary")
    (h : processRecord gm km i st a = some st2) :
    aget st2.merged k = lastValStep k (aget st.merged k) a := by
  unfold processRecord at h
  by_cases ht : pyTruthy a = false
  · rw [if_pos ht] at h
    rw [← Option.some_inj.mp h]
    cases a with
    | vdict d =>
      simp only [lastValStep]
      rw [if_neg (by simp_all)]
    | vstr s => rfl
    | vnum q => rfl
    | vbool b => rfl
    | vnull => rfl
    | vlist l => rfl
  · rw [if_neg ht] at h
    cases a with
    | vdict d =>
      obtain ⟨m, hm, hst2⟩ := Option.map_eq_some'.mp h
      have htt : pyTruthy (Val.vdict d) = true := by
        cases hPT : pyTruthy (Val.vdict d)
        · exact absurd hPT ht
        · rfl
      have hm2 : storeKeys gm km d st.merged mergeKeys = some m := by
        have hproj : (if pyTruthy ((aget d "success").getD (Val.vbool true)) = true then
            { st with succ := st.succ + 1 }
          else { st with errors := st.errors ++ [moduleError i d] }).merged = st.merged := by
          split <;> rfl
        rw [hproj] at hm
        exact hm
      have hmg : aget st2.merged k = aget m k := by rw [← hst2]
      rw [hmg, storeKeys_aget gm km d k hki mergeKeys _ m hm2 (by decide) hk]
      simp only [lastValStep, htt, if_true]
    | vstr s => exact absurd h (by simp)
    | vnum q => exact absurd h (by simp)
    | vbool b => exact absurd h (by simp)
    | vnull => exact absurd h (by simp)
    | vlist l => exact absurd h (by simp)

theorem mergeFold_aget (gm km : Val) (k : String)
    (hk : k ∈ mergeKeys) (hki : k ≠ "index_summary") :
    ∀ (args : List Val) (i : ℕ) (st st2 : MState),
      mergeFold gm km i st args = some st2 →
      aget st2.merged k = args.foldl (lastValStep k) (aget st.merged k) := by
  intro args
  induction args with
  | nil =>
    intro i st st2 h
    rw [← Option.some_inj.mp h]
    rfl
  | cons a rest ih =>
    intro i st st2 h
    simp only [mergeFold, Option.bind_eq_bind, Option.bind_eq_some] at h
    obtain ⟨st1, h1, h2⟩ := h
    rw [List.foldl_cons, ← processRecord_aget gm km i st st1 a k hk hki h1]
    exact ih (i + 1) st1 st2 h2

/-- C4: the merge is last-write-wins on duplicate keys — for every input list
and recognized non-`index_summary` key, the value found in the final merged
dict is exactly the one stored verbatim by the last truthy record containing
that key (`lastVal`), with no deep merge (and `none` when no record carries
the key). -/
theorem merge_last_write_wins (now : String) (args : List Val) (ld : PyDict)
    (k : String) (m : PyDict) (hk : k ∈ mergeKeys) (hki : k ≠ "index_summary")
    (h : merge_inputs now args ld = some m) :
    aget m k = lastVal k args := by
  have hne : k ≠ "execution_metadata" ∧ k ≠ "data_quality" := by
    simp only [mergeKeys, List.mem_cons, List.not_mem_nil, or_false] at hk
    rcases hk with rfl | rfl | rfl | rfl | rfl | rfl | rfl | rfl <;> exact ⟨by decide, by decide⟩
  unfold merge_inputs at h
  simp only [Option.bind_eq_bind, Option.bind_eq_some] at h
  obtain ⟨st, hst, hm⟩ := h
  rw [← Option.some_inj.mp hm, aget_aset_ne _ _ _ _ (Ne.symm hne.2),
    aget_aset_ne _ _ _ _ (Ne.symm hne.1),
    mergeFold_aget _ _ k hk hki args 0 ⟨[], 0, []⟩ st hst]
  rfl

unseal Rat.mul Rat.inv Rat.add Rat.sub in
/-- Witness for C4: two truthy records both carrying `khoi_tu_doanh`; the later
later value `2` is the one present in the merged output. -/
theorem merge_last_write_wins_witness :
    "khoi_tu_doanh" ∈ mergeKeys ∧
    ∃ m, merge_inputs "t"
        [Val.vdict [("khoi_tu_doanh", Val.vnum 1)], Val.vdict [("khoi_tu_doanh", Val.vnum 2)]]
        [] = some m
      ∧ aget m "khoi_tu_doanh" =
          lastVal "khoi_tu_doanh"
            [Val.vdict [("khoi_tu_doanh", Val.vnum 1)], Val.vdict [("khoi_tu_doanh", Val.vnum 2)]]
      ∧ lastVal "khoi_tu_doanh"
          [Val.vdict [("khoi_tu_doanh", Val.vnum 1)], Val.vdict [("khoi_tu_doanh", Val.vnum 2)]]
        = some (Val.vnum 2) := by
  refine ⟨by decide, _, rfl, ?_, rfl⟩
  exact merge_last_write_wins "t" _ [] "khoi_tu_doanh" _ (by decide) (by decide) rfl

/-!
### Claim C5
-/

theorem processRecord_succ (gm km : Val) (i : ℕ) (st st2 : MState) (a : Val)
    (h : processRecord gm km i st a = some st2) :
    st2.succ = st.succ + (if recSuccess a then 1 else 0) := by
  unfold processRecord at h
  by_cases ht : pyTruthy a = false
  · rw [if_pos ht] at h
    rw [← Option.some_inj.mp h]
    cases a with
    | vdict d => simp [recSuccess, ht]
    | vstr s => simp [recSuccess]
    | vnum q => simp [recSuccess]
    | vbool b => simp [recSuccess]
    | vnull => simp [recSuccess]
    | vlist l => simp [recSuccess]
  · rw [if_neg ht] at h
    cases a with
    | vdict d =>
      obtain ⟨m, hm, hst2⟩ := Option.map_eq_some'.mp h
      have htt : pyTruthy (Val.vdict d) = true := by
        cases hPT : pyTruthy (Val.vdict d)
        · exact absurd hPT ht
        · rfl
      rw [← hst2]
      by_cases hs : pyTruthy ((aget d "success").getD (Val.vbool true)) = true
      · simp [recSuccess, htt, hs]
      · simp only [Bool.not_eq_true] at hs
        simp [recSuccess, htt, hs]
    | vstr s => exact absurd h (by simp)
    | vnum q => exact absurd h (by simp)
    | vbool b => exact absurd h (by simp)
    | vnull => exact absurd h (by simp)
    | vlist l => exact absurd h (by simp)

theorem mergeFold_succ (gm km : Val) :
    ∀ (args : List Val) (i : ℕ) (st st2 : MState),
      mergeFold gm km i st args = some st2 →
      st2.succ = st.succ + args.countP recSuccess := by
  intro args
  induction args with
  | nil =>
    intro i st st2 h
    rw [← Option.some_inj.mp h]
    simp
  | cons a rest ih =>
    intro i st st2 h
    simp only [mergeFold, Option.bind_eq_bind, Option.bind_eq_some] at h
    obtain ⟨st1, h1, h2⟩ := h
    rw [ih (i + 1) st1 st2 h2, processRecord_succ gm km i st st1 a h1,
      List.countP_cons]
    by_cases hr : recSuccess a <;> simp [hr] <;> omega

/-- C5 (amended): `execution_metadata` reports
`success_rate = successful_modules / total_modules` where `total_modules` is
the full input-list length and `successful_modules` counts the *truthy
(non-empty)* records whose `success` flag is truthy or absent (skipped empty
records are not counted, contrary to the wording of the claim); for the empty input
list the rate is defined as 0. -/
theorem merge_success_rate (now : String) (args : List Val) (ld : PyDict) (m : PyDict)
    (h : merge_inputs now args ld = some m) :
    ∃ errs, aget m "execution_metadata" = some (Val.vdict
      [("success_rate", Val.vnum (if 0 < args.length then
          ((args.countP recSuccess : ℚ) / (args.length : ℚ)) else 0)),
       ("successful_modules", Val.vnum (args.countP recSuccess)),
       ("total_modules", Val.vnum (args.length)),
       ("errors", errs),
       ("timestamp", Val.vstr now)]) := by
  unfold merge_inputs at h
  simp only [Option.bind_eq_bind, Option.bind_eq_some] at h
  obtain ⟨st, hst, hm⟩ := h
  have hsucc : st.succ = args.countP recSuccess := by
    have h0 := mergeFold_succ _ _ args 0 ⟨[], 0, []⟩ st hst
    simpa using h0
  refine ⟨Val.vlist (st.errors.map Val.vstr), ?_⟩
  rw [← Option.some_inj.mp hm, aget_aset_ne _ _ _ _ (by decide), aget_aset_self, hsucc]

unseal Rat.mul Rat.inv Rat.add Rat.sub in
/-- C5 counterexample: for the input `[{}]` (one empty record), the spec-side
count of records with an absent `success` flag is 1 and would give rate 1, but
the code skips the empty record before counting: `successful_modules = 0` and
`success_rate = 0`. -/
theorem merge_success_rate_cex :
    ∃ m meta, merge_inputs "t" [Val.vdict []] [] = some m
      ∧ aget m "execution_metadata" = some (Val.vdict meta)
      ∧ aget meta "successful_modules" = some (Val.vnum 0)
      ∧ aget meta "success_rate" = some (Val.vnum 0)
      ∧ specSuccessCount [Val.vdict []] = 1
      ∧ (0 : ℚ) ≠ ((specSuccessCount [Val.vdict []] : ℚ) / 1) := by
  refine ⟨_, _, rfl, rfl, rfl, rfl, rfl, ?_⟩
  rw [show specSuccessCount [Val.vdict []] = 1 from rfl]
  norm_num

unseal Rat.mul Rat.inv Rat.add Rat.sub in
/-- Witness for the amended C5: one failed record and one successful record
give rate 1/2. -/
theorem merge_success_rate_witness :
    ∃ m, merge_inputs "t"
        [Val.vdict [("success", Val.vbool false), ("error", Val.vstr "boom")],
         Val.vdict [("khoi_ngoai", Val.vnum 7)]] [] = some m
      ∧ ∃ errs, aget m "execution_metadata" = some (Val.vdict
          [("success_rate", Val.vnum (if 0 <
              ([Val.vdict [("success", Val.vbool false), ("error", Val.vstr "boom")],
                Val.vdict [("khoi_ngoai", Val.vnum 7)]] : List Val).length then
              (((([Val.vdict [("success", Val.vbool false), ("error", Val.vstr "boom")],
                Val.vdict [("khoi_ngoai", Val.vnum 7)]] : List Val).countP recSuccess : ℚ)) /
                ((([Val.vdict [("success", Val.vbool false), ("error", Val.vstr "boom")],
                Val.vdict [("khoi_ngoai", Val.vnum 7)]] : List Val).length : ℚ))) else 0)),
           ("successful_modules", Val.vnum
             ((([Val.vdict [("success", Val.vbool false), ("error", Val.vstr "boom")],
                Val.vdict [("khoi_ngoai", Val.vnum 7)]] : List Val).countP recSuccess))),
           ("total_modules", Val.vnum
             ((([Val.vdict [("success", Val.vbool false), ("error", Val.vstr "boom")],
                Val.vdict [("khoi_ngoai", Val.vnum 7)]] : List Val).length))),
           ("errors", errs),
           ("timestamp", Val.vstr "t")]) :=
  ⟨_, rfl, merge_success_rate "t"
    [Val.vdict [("success", Val.vbool false), ("error", Val.vstr "boom")],
     Val.vdict [("khoi_ngoai", Val.vnum 7)]] [] _ rfl⟩

/-!
### Claim C6
-/

unseal Rat.mul Rat.inv Rat.add Rat.sub in
/-- C6 counterexample: on `NoSuchKey` the lookup does return
`{success: true, last_day_gtdg: {}, last_day_klgd: {}}` and the merge proceeds
without error, but the deltas do not "default to 0" — the enriched entry
carries no `klgd_change_percent` / `gtdg_change_percent` key at all. -/
theorem download_nosuchkey_cex :
    (downloadMain "reports/stock_20250101.csv" "20241231"
      (S3Fetch.clientError "NoSuchKey")).success = true
    ∧ ∃ m it, merge_inputs "t"
        [Val.vdict [("index_summary", Val.vlist
          [Val.vdict [("indexId", Val.vstr "VNINDEX"), ("allQty", Val.vnum 7000000),
            ("allValue", Val.vnum 3000000000)]])]]
        (downloadMain "reports/stock_20250101.csv" "20241231"
          (S3Fetch.clientError "NoSuchKey")).toDict = some m
      ∧ aget m "index_summary" = some (Val.vlist [Val.vdict it])
      ∧ (aget it "klgd_change_percent").isSome = false
      ∧ (aget it "gtdg_change_percent").isSome = false := by
  exact ⟨rfl, _, _, rfl, rfl, rfl, rfl⟩

/-- C6 (amended): when the previous-day object is absent (`ClientError` with
code `NoSuchKey`), the lookup returns a successful result with empty GTGD/KLGD
maps and no `error` field; feeding that result into the merge makes every
looked-up previous value default to 0, so the enrichment succeeds (no exception
propagates) and the delta keys are omitted from every entry (not set to 0). -/
theorem download_nosuchkey_empty_success (ck ds : String)
    (hck : pySplit '_' ck ≠ []) :
    (downloadMain ck ds (S3Fetch.clientError "NoSuchKey")).success = true
    ∧ (downloadMain ck ds (S3Fetch.clientError "NoSuchKey")).last_day_gtdg = []
    ∧ (downloadMain ck ds (S3Fetch.clientError "NoSuchKey")).last_day_klgd = []
    ∧ (downloadMain ck ds (S3Fetch.clientError "NoSuchKey")).error = none
    ∧ aget (downloadMain ck ds (S3Fetch.clientError "NoSuchKey")).toDict
        "last_day_gtdg" = some (Val.vdict [])
    ∧ aget (downloadMain ck ds (S3Fetch.clientError "NoSuchKey")).toDict
        "last_day_klgd" = some (Val.vdict [])
    ∧ (∀ (item : PyDict) (s : String), aget item "indexId" = some (Val.vstr s) →
        aget item "klgd_change_percent" = none → aget item "gtdg_change_percent" = none →
        ∃ it2, enrichItem (Val.vdict []) (Val.vdict []) item = some it2 ∧
          aget it2 "klgd_change_percent" = none ∧
          aget it2 "gtdg_change_percent" = none) := by
  have hr : downloadMain ck ds (S3Fetch.clientError "NoSuchKey") =
      ⟨true, [], [], none, some ("Last day CSV not found at " ++
        (String.intercalate "_" (pySplit '_' ck).dropLast ++ "_" ++ ds ++ ".csv") ++ ".")⟩ := by
    unfold downloadMain
    rw [if_neg (by simpa using hck)]
    rfl
  refine ⟨by rw [hr], by rw [hr], by rw [hr], by rw [hr],
    by rw [hr]; rfl, by rw [hr]; rfl, ?_⟩
  intro item s hid hkl hgt
  have hlf : lookFloat (Val.vdict []) item = some 0 := by
    unfold lookFloat prevLookup
    rw [hid]
    rfl
  refine ⟨_, enrichItem_eq (Val.vdict []) (Val.vdict []) item 0 0 hlf hlf, ?_, ?_⟩
  · rw [aget_tryValue_ne _ _ _ (by decide) (by decide) (by decide),
      aget_tryQty_zero_ne _ _ (by decide),
      aget_aset_ne _ _ _ _ (by decide), aget_aset_ne _ _ _ _ (by decide)]
    exact hkl
  · rw [aget_tryValue_zero_ne _ _ (by decide),
      aget_tryQty_ne _ _ _ (by decide) (by decide) (by decide),
      aget_aset_ne _ _ _ _ (by decide), aget_aset_ne _ _ _ _ (by decide)]
    exact hgt

/-- Witness for the amended C6 at a concrete csv key and date. -/
theorem download_nosuchkey_empty_success_witness :
    pySplit '_' "stock_report_20250101.csv" ≠ [] ∧
    (downloadMain "stock_report_20250101.csv" "20241231"
      (S3Fetch.clientError "NoSuchKey")).success = true
    ∧ (downloadMain "stock_report_20250101.csv" "20241231"
        (S3Fetch.clientError "NoSuchKey")).last_day_gtdg = []
    ∧ (downloadMain "stock_report_20250101.csv" "20241231"
        (S3Fetch.clientError "NoSuchKey")).last_day_klgd = [] := by
  have h := download_nosuchkey_empty_success "stock_report_20250101.csv" "20241231"
    (by decide)
  exact ⟨by decide, h.1, h.2.1, h.2.2.1⟩

/-!
### Claim C7
-/

/-- C7 counterexample: ordinal 738886 is Monday 2024-01-01
(`datetime(2024,1,1).weekday() == 0`), yet the 27_7 download script targets
`datetime.now() - timedelta(days=1)` unconditionally, i.e. Sunday 738885, not
the previous Friday 738883 — so "d minus 3 days if d is a Monday" does not hold
for the lookup of that flow. -/
theorem trading_day_monday_cex :
    weekday 738886 = 0
    ∧ yesterdayTarget 738886 = 738885
    ∧ 738885 ≠ 738886 - 3
    ∧ get_last_trading_day 738886 = 738883 := by
  exact ⟨rfl, rfl, by decide, rfl⟩

/-- C7 (amended): `get_last_trading_day` of the 18_8 flow targets the previous
Friday (three days earlier, weekday 4) when the run date is a Monday and the
previous day otherwise; the lookup of the 27_7 flow always targets the previous day,
even on Mondays. -/
theorem trading_day_rule (d : ℕ) (hd : 3 ≤ d) :
    (weekday d = 0 → get_last_trading_day d = d - 3 ∧ weekday (get_last_trading_day d) = 4)
    ∧ (weekday d ≠ 0 → get_last_trading_day d = d - 1)
    ∧ yesterdayTarget d = d - 1 := by
  refine ⟨?_, ?_, rfl⟩
  · intro h0
    refine ⟨by simp [get_last_trading_day, h0], ?_⟩
    have hgd : get_last_trading_day d = d - 3 := by simp [get_last_trading_day, h0]
    rw [hgd]
    unfold weekday at h0 ⊢
    omega
  · intro h0
    simp [get_last_trading_day, h0]

/-- Witness for the amended C7 at the Monday ordinal 738886 (2024-01-01). -/
theorem trading_day_rule_witness :
    3 ≤ 738886
    ∧ ((weekday 738886 = 0 →
        get_last_trading_day 738886 = 738886 - 3 ∧
        weekday (get_last_trading_day 738886) = 4)
      ∧ (weekday 738886 ≠ 0 → get_last_trading_day 738886 = 738886 - 1)
      ∧ yesterdayTarget 738886 = 738886 - 1) :=
  ⟨by decide, trading_day_rule 738886 (by decide)⟩

/-!
### Claim C8
-/

theorem mapM_extract_loop (items : List PyDict) (acc : List PyDict) :
    List.mapM.loop (fun it =>
      match it with
      | Val.vdict d => some (extractFis d)
      | _ => none) (items.map Val.vdict) (acc.map extractFis)
      = some ((acc.map extractFis).reverse ++ items.map extractFis) := by
  induction items generalizing acc with
  | nil => simp [List.mapM.loop]
  | cons a rest ih =>
    have hstep := ih (a :: acc)
    simp only [List.map_cons, List.mapM.loop, Option.bind_eq_bind, Option.some_bind] at hstep ⊢
    rw [hstep]
    simp

theorem mapM_extract (items : List PyDict) :
    ((items.map Val.vdict).mapM (fun it =>
      match it with
      | Val.vdict d => some (extractFis d)
      | _ => none)) = some (items.map extractFis) := by
  have h := mapM_extract_loop items []
  simpa [List.mapM] using h

theorem aget_keyFields_map (f : String → Val) :
    ∀ (ks : List String) (k : String), k ∈ ks →
      aget (ks.map (fun x => (x, f x))) k = some (f k) := by
  intro ks
  induction ks with
  | nil => intro k h; exact absurd h (List.not_mem_nil k)
  | cons k0 rest ih =>
    intro k hk
    by_cases he : k0 = k
    · subst he
      simp [aget]
    · rcases List.mem_cons.mp hk with rfl | hmem
      · exact absurd rfl he
      · simp [aget, he, ih _ hmem]

/-- C8: the fetch adapters are fail-safe.  The metric key (`index_summary` /
`khoi_ngoai`) is present in the returned record for *every* outcome; on a
caught exception (network failure, non-2xx status via `raise_for_status`, JSON
decode error) or a payload without a `"data"` key (which covers `{"error":...}`
payloads), the record has `success = false` and the zero/empty-shaped default
payload; on a well-shaped success payload the adapter extracts the declared
field subset and missing optional fields default to `"N/A"` instead of raising.
All of these are total functions — no outcome propagates an exception. -/
theorem fetch_adapters_fail_safe :
    (∀ o : FetchOutcome, (aget (fetch_index_summary_main o) "index_summary").isSome = true)
    ∧ (∀ (sm : String) (o : FetchOutcome),
        (aget (fetch_khoi_ngoai_main sm o) "khoi_ngoai").isSome = true)
    ∧ (∀ e, aget (fetch_index_summary_main (.exn e)) "success" = some (Val.vbool false)
        ∧ aget (fetch_index_summary_main (.exn e)) "index_summary" = some (Val.vlist []))
    ∧ (∀ d : PyDict, aget d "data" = none →
        aget (fetch_index_summary_main (.ok (Val.vdict d))) "success" = some (Val.vbool false)
        ∧ aget (fetch_index_summary_main (.ok (Val.vdict d))) "index_summary" =
            some (Val.vlist []))
    ∧ (∀ e sm, aget (fetch_khoi_ngoai_main sm (.exn e)) "success" = some (Val.vbool false)
        ∧ aget (fetch_khoi_ngoai_main sm (.exn e)) "khoi_ngoai" =
            some (Val.vdict [("vol", Val.vnum 0), ("net_value", Val.vnum 0)]))
    ∧ (∀ (d : PyDict) (sm : String), aget d "data" = none →
        aget (fetch_khoi_ngoai_main sm (.ok (Val.vdict d))) "success" = some (Val.vbool false)
        ∧ aget (fetch_khoi_ngoai_main sm (.ok (Val.vdict d))) "khoi_ngoai" =
            some (Val.vdict [("vol", Val.vnum 0), ("net_value", Val.vnum 0)]))
    ∧ (∀ items : List PyDict,
        fetch_index_summary_main (.ok (Val.vdict [("data", Val.vlist (items.map Val.vdict))]))
          = [("index_summary", Val.vlist ((items.map extractFis).map Val.vdict)),
             ("success", Val.vbool true),
             ("data_quality", Val.vdict
               [("records_processed", Val.vnum (items.length)),
                ("source_records", Val.vnum (items.length))])])
    ∧ (∀ (d : PyDict) (k : String), k ∈ fisFields → aget d k = none →
        aget (extractFis d) k = some (Val.vstr "N/A")) := by
  refine ⟨?_, ?_, ?_, ?_, ?_, ?_, ?_, ?_⟩
  · intro o
    cases o with
    | exn e => rfl
    | ok data =>
      unfold fetch_index_summary_main
      repeat' (first | rfl | split | dsimp only)
  · intro sm o
    cases o with
    | exn e => rfl
    | ok data =>
      unfold fetch_khoi_ngoai_main
      repeat' (first | rfl | split | dsimp only)
  · intro e
    exact ⟨rfl, rfl⟩
  · intro d hd
    constructor <;>
    · unfold fetch_index_summary_main
      dsimp only
      by_cases ht : pyTruthy (Val.vdict d) = false
      · rw [if_pos ht]
        rfl
      · rw [if_neg ht]
        have hc : pyContainsStr (Val.vdict d) "data" = some false := by
          simp [pyContainsStr, hd]
        rw [hc]
        rfl
  · intro e sm
    exact ⟨rfl, rfl⟩
  · intro d sm hd
    constructor <;>
    · unfold fetch_khoi_ngoai_main
      dsimp only
      by_cases ht : pyTruthy (Val.vdict d) = false
      · rw [if_pos ht]
        rfl
      · rw [if_neg ht]
        have hc : pyContainsStr (Val.vdict d) "data" = some false := by
          simp [pyContainsStr, hd]
        rw [hc]
        rfl
  · intro items
    have h1 := mapM_extract items
    simp only [List.mapM] at h1
    simp [fetch_index_summary_main, pyContainsStr, pySubscript, aget, pyTruthy, h1,
      List.map_map]
  · intro d k hk hd
    rw [extractFis, aget_keyFields_map _ fisFields k hk, hd]
    rfl

/-- Witness for C8 at concrete payloads: an `{"error": ...}` body yields the
`success = false` default record in both adapters, and a summary item without
`allQty` is extracted with the `"N/A"` placeholder. -/
theorem fetch_adapters_fail_safe_witness :
    (aget (fetch_index_summary_main
        (.ok (Val.vdict [("error", Val.vstr "bad")]))) "success" = some (Val.vbool false)
      ∧ aget (fetch_index_summary_main
          (.ok (Val.vdict [("error", Val.vstr "bad")]))) "index_summary" =
            some (Val.vlist []))
    ∧ (aget (fetch_khoi_ngoai_main "HSX"
        (.ok (Val.vdict [("error", Val.vstr "bad")]))) "success" = some (Val.vbool false)
      ∧ aget (fetch_khoi_ngoai_main "HSX"
          (.ok (Val.vdict [("error", Val.vstr "bad")]))) "khoi_ngoai" =
            some (Val.vdict [("vol", Val.vnum 0), ("net_value", Val.vnum 0)]))
    ∧ aget (extractFis [("indexId", Val.vstr "VNINDEX")]) "allQty" = some (Val.vstr "N/A") :=
  ⟨fetch_adapters_fail_safe.2.2.2.1 [("error", Val.vstr "bad")] rfl,
   fetch_adapters_fail_safe.2.2.2.2.2.1 [("error", Val.vstr "bad")] "HSX" rfl,
   fetch_adapters_fail_safe.2.2.2.2.2.2.2 [("indexId", Val.vstr "VNINDEX")] "allQty"
     (by decide) rfl⟩

/-!
### Claim C10: frame lemmas for the heap model

Every write performed by `mergeInputsH` targets an address allocated at or after
entry, so all addresses below a watermark `N` (in particular every input
object) are untouched.  `extFrom N h h2` is the invariant threaded through the
computation.
-/

theorem extFrom_refl (N : ℕ) (h : Heap) : extFrom N h h :=
  ⟨le_refl _, fun _ _ => rfl⟩

theorem extFrom_trans {N : ℕ} {h1 h2 h3 : Heap}
    (a : extFrom N h1 h2) (b : extFrom N h2 h3) : extFrom N h1 h3 :=
  ⟨le_trans a.1 b.1, fun i hi => (b.2 i hi).trans (a.2 i hi)⟩

theorem extFrom_alloc (N : ℕ) (h : Heap) (o : HObj) (hN : N ≤ h.length) :
    extFrom N h (h ++ [o]) := by
  refine ⟨by simp, fun i hi => ?_⟩
  exact List.getElem?_append_left (lt_of_lt_of_le hi hN)

theorem extFrom_hset (N : ℕ) (h : Heap) (a : ℕ) (o : HObj) (ha : N ≤ a) :
    extFrom N h (hset h a o) := by
  refine ⟨by simp [hset], fun i hi => ?_⟩
  exact List.getElem?_set_ne (by omega)

theorem extFrom_length {N : ℕ} {h h2 : Heap} (e : extFrom N h h2) (hN : N ≤ h.length) :
    N ≤ h2.length := le_trans hN e.1

theorem processItemH_ext (gm km : HVal) (N : ℕ) (h : Heap) (it : HVal)
    (h2 : Heap) (ca : ℕ) (hp : processItemH gm km h it = some (h2, ca))
    (hN : N ≤ h.length) : extFrom N h h2 := by
  cases it with
  | atom a => exact absurd hp (by simp [processItemH])
  | ref ia =>
    simp only [processItemH] at hp
    cases hobj : h[ia]? with
    | none => rw [hobj] at hp; exact absurd hp (by simp)
    | some o =>
      rw [hobj] at hp
      cases o with
      | hlist l => exact absurd hp (by simp)
      | hdict idict =>
        simp only [halloc, Option.bind_eq_bind, Option.bind_eq_some, Option.some_inj,
          Prod.mk.injEq] at hp
        obtain ⟨gv, hgv, g, hg, kv, hkv, k, hk, hh2, hca⟩ := hp
        rw [← hh2]
        exact extFrom_trans (extFrom_alloc N h _ hN)
          (extFrom_hset N _ h.length _ hN)

theorem summaryLoopH_ext (gm km : HVal) (N pa : ℕ) (hpa : N ≤ pa) :
    ∀ (items : List HVal) (h h2 : Heap),
      summaryLoopH gm km pa h items = some h2 → N ≤ h.length → extFrom N h h2 := by
  intro items
  induction items with
  | nil =>
    intro h h2 hp hN
    rw [← Option.some_inj.mp hp]
    exact extFrom_refl N h
  | cons it rest ih =>
    intro h h2 hp hN
    simp only [summaryLoopH, Option.bind_eq_bind, Option.bind_eq_some] at hp
    obtain ⟨⟨h1, ca⟩, hpi, hp⟩ := hp
    cases hobj : h1[pa]? with
    | none => rw [hobj] at hp; exact absurd hp (by simp)
    | some o =>
      rw [hobj] at hp
      cases o with
      | hdict d => exact absurd hp (by simp)
      | hlist l =>
        have e1 : extFrom N h h1 := processItemH_ext gm km N h it h1 ca hpi hN
        have e2 : extFrom N h1 (hset h1 pa (.hlist (l ++ [.ref ca]))) :=
          extFrom_hset N h1 pa _ hpa
        have hN2 : N ≤ (hset h1 pa (HObj.hlist (l ++ [.ref ca]))).length := by
          have := extFrom_length e1 hN
          simp [hset]
          omega
        exact extFrom_trans (extFrom_trans e1 e2) (ih _ h2 hp hN2)

theorem processSummaryH_ext (gm km : HVal) (N : ℕ) (h : Heap) (v : HVal)
    (h2 : Heap) (pa : ℕ) (hp : processSummaryH gm km h v = some (h2, pa))
    (hN : N ≤ h.length) : extFrom N h h2 ∧ N ≤ pa := by
  cases v with
  | atom a => exact absurd hp (by simp [processSummaryH])
  | ref a =>
    simp only [processSummaryH] at hp
    cases hobj : h[a]? with
    | none => rw [hobj] at hp; exact absurd hp (by simp)
    | some o =>
      rw [hobj] at hp
      cases o with
      | hdict d => exact absurd hp (by simp)
      | hlist items =>
        simp only [halloc, Option.map_eq_some'] at hp
        obtain ⟨h3, hloop, hpair⟩ := hp
        obtain ⟨hh2, hpa⟩ := Prod.mk.injEq .. ▸ hpair
        rw [← hh2]
        constructor
        · exact extFrom_trans (extFrom_alloc N h (HObj.hlist []) hN)
            (summaryLoopH_ext gm km N h.length (by omega) items _ h3 hloop (by simp; omega))
        · omega

theorem writeMergedH_ext (N : ℕ) (h : Heap) (ma : ℕ) (k : String) (v : HVal)
    (h2 : Heap) (hma : N ≤ ma) (hp : writeMergedH h ma k v = some h2) :
    extFrom N h h2 := by
  unfold writeMergedH at hp
  cases hobj : h[ma]? with
  | none => rw [hobj] at hp; exact absurd hp (by simp)
  | some o =>
    rw [hobj] at hp
    cases o with
    | hlist l => exact absurd hp (by simp)
    | hdict md =>
      rw [← Option.some_inj.mp hp]
      exact extFrom_hset N h ma _ hma

theorem storeKeyH_ext (gm km : HVal) (N : ℕ) (d : List (String × HVal)) (ma : ℕ)
    (h : Heap) (k : String) (h2 : Heap) (hma : N ≤ ma) (hN : N ≤ h.length)
    (hp : storeKeyH gm km d ma h k = some h2) : extFrom N h h2 := by
  unfold storeKeyH at hp
  cases hd : aget d k with
  | none =>
    rw [hd] at hp
    rw [← Option.some_inj.mp hp]
    exact extFrom_refl N h
  | some v =>
    rw [hd] at hp
    dsimp only at hp
    by_cases hk : k = "index_summary"
    · rw [if_pos hk] at hp
      simp only [Option.bind_eq_bind, Option.bind_eq_some] at hp
      obtain ⟨t, ht, hp⟩ := hp
      by_cases htv : t = true
      · subst htv
        rw [if_pos rfl] at hp
        simp only [Option.bind_eq_bind, Option.bind_eq_some] at hp
        obtain ⟨⟨h3, pa⟩, hsum, hw⟩ := hp
        have e1 := processSummaryH_ext gm km N h v h3 pa hsum hN
        exact extFrom_trans e1.1 (writeMergedH_ext N h3 ma k _ h2 hma hw)
      · rw [if_neg htv] at hp
        exact writeMergedH_ext N h ma k v h2 hma hp
    · rw [if_neg hk] at hp
      exact writeMergedH_ext N h ma k v h2 hma hp

theorem storeKeysH_ext (gm km : HVal) (N : ℕ) (d : List (String × HVal)) (ma : ℕ)
    (hma : N ≤ ma) :
    ∀ (ks : List String) (h h2 : Heap),
      storeKeysH gm km d ma h ks = some h2 → N ≤ h.length → extFrom N h h2 := by
  intro ks
  induction ks with
  | nil =>
    intro h h2 hp _
    rw [← Option.some_inj.mp hp]
    exact extFrom_refl N h
  | cons k ks ih =>
    intro h h2 hp hN
    simp only [storeKeysH, Option.bind_eq_bind, Option.bind_eq_some] at hp
    obtain ⟨h1, h1p, hp⟩ := hp
    have e1 := storeKeyH_ext gm km N d ma h k h1 hma hN h1p
    exact extFrom_trans e1 (ih h1 h2 hp (extFrom_length e1 hN))

theorem processRecordH_ext (gm km : HVal) (N ma i : ℕ) (h : Heap) (succ : ℕ)
    (errs : List String) (data : HVal) (h2 : Heap) (succ2 : ℕ) (errs2 : List String)
    (hma : N ≤ ma) (hN : N ≤ h.length)
    (hp : processRecordH gm km ma i h succ errs data = some (h2, succ2, errs2)) :
    extFrom N h h2 := by
  unfold processRecordH at hp
  simp only [Option.bind_eq_bind, Option.bind_eq_some] at hp
  obtain ⟨t, ht, hp⟩ := hp
  by_cases htf : t = false
  · subst htf
    rw [if_pos rfl] at hp
    simp only [Option.some_inj, Prod.mk.injEq] at hp
    rw [← hp.1]
    exact extFrom_refl N h
  · rw [if_neg htf] at hp
    cases data with
    | atom a => exact absurd hp (by simp)
    | ref a =>
      dsimp only at hp
      cases hobj : h[a]? with
      | none => rw [hobj] at hp; exact absurd hp (by simp)
      | some o =>
        rw [hobj] at hp
        cases o with
        | hlist l => exact absurd hp (by simp)
        | hdict d =>
          simp only [Option.bind_eq_bind, Option.bind_eq_some, Option.some_inj,
            Prod.mk.injEq] at hp
          obtain ⟨sb, hsb, h3, h3p, hh2, _, _⟩ := hp
          rw [← hh2]
          exact storeKeysH_ext gm km N d ma hma mergeKeys h h3 h3p hN

theorem recordLoopH_ext (gm km : HVal) (N ma : ℕ) (hma : N ≤ ma) :
    ∀ (args : List HVal) (i : ℕ) (h : Heap) (succ : ℕ) (errs : List String)
      (h2 : Heap) (succ2 : ℕ) (errs2 : List String),
      recordLoopH gm km ma i h succ errs args = some (h2, succ2, errs2) →
      N ≤ h.length → extFrom N h h2 := by
  intro args
  induction args with
  | nil =>
    intro i h succ errs h2 succ2 errs2 hp _
    simp only [recordLoopH, Option.some_inj, Prod.mk.injEq] at hp
    rw [← hp.1]
    exact extFrom_refl N h
  | cons a rest ih =>
    intro i h succ errs h2 succ2 errs2 hp hN
    simp only [recordLoopH, Option.bind_eq_bind, Option.bind_eq_some] at hp
    obtain ⟨⟨h1, s1, e1⟩, h1p, hp⟩ := hp
    have ex1 := processRecordH_ext gm km N ma i h succ errs a h1 s1 e1 hma hN h1p
    exact extFrom_trans ex1 (ih (i + 1) h1 s1 e1 h2 succ2 errs2 hp (extFrom_length ex1 hN))

theorem validateH_ext (N : ℕ) (h : Heap) (ma : ℕ) (now : String) (h2 : Heap) (qa : ℕ)
    (hp : validateH h ma now = some (h2, qa)) (hN : N ≤ h.length) : extFrom N h h2 := by
  unfold validateH at hp
  cases hobj : h[ma]? with
  | none => rw [hobj] at hp; exact absurd hp (by simp)
  | some o =>
    rw [hobj] at hp
    cases o with
    | hlist l => exact absurd hp (by simp)
    | hdict md =>
      simp only [halloc, Option.bind_eq_bind, Option.bind_eq_some, Option.some_inj,
        Prod.mk.injEq] at hp
      obtain ⟨indexOk, hio, knOk, hkn, w1, hw1, hh2, hqa⟩ := hp
      rw [← hh2]
      refine ⟨by simp, fun i hi => ?_⟩
      have hlt : i < h.length := lt_of_lt_of_le hi hN
      rw [List.getElem?_append_left (by simp; omega),
        List.getElem?_append_left (by simp; omega),
        List.getElem?_append_left hlt]

theorem mergeCoreH_ext (gm km : HVal) (N : ℕ) (h : Heap) (args : List HVal)
    (now : String) (h2 : Heap) (ma : ℕ)
    (hp : mergeCoreH gm km h args now = some (h2, ma)) (hN : N ≤ h.length) :
    extFrom N h h2 := by
  unfold mergeCoreH at hp
  simp only [halloc, Option.bind_eq_bind, Option.bind_eq_some, Option.some_inj,
    Prod.mk.injEq] at hp
  obtain ⟨⟨h1, s1, e1⟩, hloop, h4, hw4, ⟨h5, qa⟩, hval, h6, hw6, hh2, hma⟩ := hp
  dsimp only at hloop hw4 hval hw6
  have ex1 : extFrom N h (h ++ [HObj.hdict []]) := extFrom_alloc N h _ hN
  have ex2 : extFrom N (h ++ [HObj.hdict []]) h1 :=
    recordLoopH_ext gm km N h.length (by omega) args 0 _ 0 [] h1 s1 e1 hloop
      (by simp; omega)
  have hN1 : N ≤ h1.length := extFrom_length ex2 (extFrom_length ex1 hN)
  have ex3 : extFrom N h1 (h1 ++ [HObj.hlist (e1.map (fun e => HVal.atom (.astr e)))]) :=
    extFrom_alloc N h1 _ hN1
  have hN3 : N ≤ (h1 ++ [HObj.hlist (e1.map (fun e => HVal.atom (.astr e)))]).length := by
    simp
    omega
  have ex4 := extFrom_alloc N (h1 ++ [HObj.hlist (e1.map (fun e => HVal.atom (.astr e)))])
    (HObj.hdict
      [("success_rate", .atom (.anum (if 0 < args.length then (s1 : ℚ) / (args.length : ℚ) else 0))),
       ("successful_modules", .atom (.anum s1)),
       ("total_modules", .atom (.anum args.length)),
       ("errors", .ref h1.length),
       ("timestamp", .atom (.astr now))]) hN3
  have ex5 := writeMergedH_ext N _ _ "execution_metadata" _ h4 hN hw4
  have hN4 : N ≤ h4.length :=
    extFrom_length ex5 (extFrom_length ex4 (extFrom_length ex3 hN1))
  have ex6 := validateH_ext N h4 (List.length h) now h5 qa hval hN4
  have ex7 := writeMergedH_ext N h5 (List.length h) "data_quality" (HVal.ref qa) h6 hN hw6
  rw [← hh2]
  exact extFrom_trans ex1 (extFrom_trans ex2 (extFrom_trans ex3 (extFrom_trans ex4
    (extFrom_trans ex5 (extFrom_trans ex6 ex7)))))

theorem frameOK_core (gm km : HVal) (h hb : Heap) (args : List HVal) (now : String)
    (hext : extFrom h.length h hb) :
    frameOK h (mergeCoreH gm km hb args now) := by
  cases hc : mergeCoreH gm km hb args now with
  | none => trivial
  | some pr =>
    obtain ⟨h2, ma⟩ := pr
    have e := mergeCoreH_ext gm km h.length hb args now h2 ma hc
      (extFrom_length hext (le_refl _))
    have et := extFrom_trans hext e
    exact ⟨et.1, et.2⟩

/-- C10: the heap model of `merge_inputs` never mutates a pre-existing object —
every address that exists when the function is entered (in particular every
record in `args`, every `index_summary` item dict, which is `copy()`-ed before
enrichment, and the `last_day_data` dict) holds the same object after the call;
all writes target freshly allocated objects. -/
theorem merge_inputs_no_mutation (h : Heap) (args : List HVal) (ld : ℕ) (now : String) :
    frameOK h (mergeInputsH h args ld now) := by
  unfold mergeInputsH
  cases hld : h[ld]? with
  | none => trivial
  | some o =>
    cases o with
    | hlist l => trivial
    | hdict ldd =>
      dsimp only
      cases hg : aget ldd "last_day_gtdg" with
      | some gv =>
        cases hk : aget ldd "last_day_klgd" with
        | some kv =>
          exact frameOK_core gv kv h h args now (extFrom_refl _ _)
        | none =>
          exact frameOK_core gv (HVal.ref h.length) h (h ++ [HObj.hdict []]) args now
            (extFrom_alloc _ h _ (le_refl _))
      | none =>
        cases hk : aget ldd "last_day_klgd" with
        | some kv =>
          exact frameOK_core (HVal.ref h.length) kv h (h ++ [HObj.hdict []]) args now
            (extFrom_alloc _ h _ (le_refl _))
        | none =>
          exact frameOK_core (HVal.ref h.length) (HVal.ref (h ++ [HObj.hdict []]).length)
            h ((h ++ [HObj.hdict []]) ++ [HObj.hdict []]) args now
            (extFrom_trans (extFrom_alloc _ h _ (le_refl _))
              (extFrom_alloc _ _ _ (by simp)))

unseal Rat.mul Rat.inv Rat.add Rat.sub in
/-- Witness for C10: on the concrete heap the merge succeeds, and by the
theorem the four pre-existing objects are unchanged. -/
theorem merge_inputs_no_mutation_witness :
    (mergeInputsH heapC10 [HVal.ref 2] 3 "t").isSome = true
    ∧ frameOK heapC10 (mergeInputsH heapC10 [HVal.ref 2] 3 "t") :=
  ⟨rfl, merge_inputs_no_mutation heapC10 [HVal.ref 2] 3 "t"⟩
